import Mathlib

/-!
Formal models of parts of the clifm file manager: the keystroke
suggestion engine (src/suggestions.c) and several initialization
routines (src/init.c).  C functions are embedded as pure Lean
functions; the process-wide C state a function consumes becomes an
explicit environment record, and operating-system calls (readlink,
lstat, access) become oracle parameters.  C strings are NUL-free
`List Char` values, and `strncmp`-style byte comparisons are embedded
with their stop-at-NUL semantics.
-/

namespace Clifm

/-- Model of the `TOUPPER` macro (ASCII `toupper`). -/
def toUpperC (c : Char) : Char :=
  if 'a' ≤ c ∧ c ≤ 'z' then Char.ofNat (c.toNat - 32) else c

/-- Model of `strncmp(a, b, n) == 0` for NUL-free C strings: at most
`n` characters are compared, and the end of a string behaves as its
NUL terminator. -/
def strncmpZ : List Char → List Char → Nat → Bool
  | _, _, 0 => true
  | [], [], _ + 1 => true
  | [], _ :: _, _ + 1 => false
  | _ :: _, [], _ + 1 => false
  | a :: as, b :: bs, n + 1 => a == b && strncmpZ as bs n

/-- Boolean test that the first list is an initial segment of the
second. -/
def isPref : List Char → List Char → Bool
  | [], _ => true
  | _ :: _, [] => false
  | a :: as, b :: bs => a == b && isPref as bs

theorem strncmpZ_length (a b : List Char) : strncmpZ a b a.length = isPref a b := by
  induction a generalizing b with
  | nil => cases b <;> rfl
  | cons x xs ih =>
    cases b with
    | nil => rfl
    | cons y ys => simp [strncmpZ, isPref, ih]

/-- Case-folded (`strncasecmp`) or exact (`strncmp`) equality of the
first `n` characters, as selected by `case_sens_path_comp`. -/
def strncmpCase (cs : Bool) (a b : List Char) (n : Nat) : Bool :=
  if cs then strncmpZ a b n else strncmpZ (a.map toUpperC) (b.map toUpperC) n

/-- The predicate the per-entry tests of the scanning functions
amount to: the typed word is a prefix of the candidate, case-folded
or exact as configured. -/
def prefCase (cs : Bool) (a b : List Char) : Bool :=
  if cs then isPref a b else isPref (a.map toUpperC) (b.map toUpperC)

theorem strncmpCase_length (cs : Bool) (a b : List Char) :
    strncmpCase cs a b a.length = prefCase cs a b := by
  cases cs with
  | false =>
    show strncmpZ (a.map toUpperC) (b.map toUpperC) a.length
        = isPref (a.map toUpperC) (b.map toUpperC)
    rw [← List.length_map a toUpperC, strncmpZ_length]
  | true => simp [strncmpCase, prefCase, strncmpZ_length]

theorem prefCase_head (cs : Bool) (a b : Char) (as bs : List Char)
    (h : toUpperC a ≠ toUpperC b) : prefCase cs (a :: as) (b :: bs) = false := by
  cases cs with
  | false => simp [prefCase, isPref]; intro he; exact absurd (by rw [he]) h
  | true =>
    simp [prefCase, isPref]
    intro he
    exact absurd (by rw [he]) h

theorem prefCase_nil_right (cs : Bool) (a : Char) (as : List Char) :
    prefCase cs (a :: as) [] = false := by
  cases cs <;> simp [prefCase, isPref]

/-- Character class of the C `isspace` set. -/
def isSpaceC (c : Char) : Bool :=
  c == ' ' || c == '\t' || c == '\n' || c == '\r' || c == '\x0b' || c == '\x0c'

/-- Decimal digit test, `c >= '0' && c <= '9'`. -/
def isDigitC (c : Char) : Bool :=
  decide ('0' ≤ c ∧ c ≤ '9')

/-- Numeric value of a digit character. -/
def digitVal (c : Char) : Nat := c.toNat - '0'.toNat

/-- Accumulating parse of a maximal digit run. -/
def atoiDigits : List Char → Nat → Nat
  | c :: cs, acc => if isDigitC c then atoiDigits cs (acc * 10 + digitVal c) else acc
  | [], acc => acc

/-- Model of `atoi`: skip leading white space, read an optional sign,
then a maximal run of digits (overflow is not modelled). -/
def atoiC (l : List Char) : Int :=
  match l.dropWhile isSpaceC with
  | '-' :: rest => - (atoiDigits rest 0 : Int)
  | '+' :: rest => (atoiDigits rest 0 : Int)
  | rest => (atoiDigits rest 0 : Int)

/-- `atoi` on a Lean string. -/
def atoiS (s : String) : Int := atoiC s.data

/-- Split a NUL-free C string at the first occurrence of `c`, as done
by `strchr` followed by truncation: the part before and the part
after, or `none` when `c` does not occur. -/
def splitChr (c : Char) : List Char → Option (List Char × List Char)
  | [] => none
  | a :: rest =>
    if a == c then some ([], rest)
    else
      match splitChr c rest with
      | some (x, y) => some (a :: x, y)
      | none => none

/-! ## get_sys_shell (src/init.c:61-87), claim C6 -/

/-- Shell identities of clifm's `SHELL_*` constants. -/
inductive Shell
  | none | bash | dash | fish | ksh | tcsh | zsh
  deriving DecidableEq, Repr

/-- Characters of a C string that follow its last '/'
(`strrchr(l, '/')` plus one), or `none` when there is no '/'. -/
def afterLastSlash : List Char → Option (List Char)
  | [] => none
  | a :: rest =>
    match afterLastSlash rest with
    | some r => some r
    | none => if a == '/' then some rest else none

/-- The component `get_sys_shell` examines: the characters after the
last '/', or the whole string when there is no '/' or when nothing
follows the last '/'. -/
def sysShellComp (l : List Char) : List Char :=
  match afterLastSlash l with
  | some r => if r ≠ [] then r else l
  | none => l

/-- The name-to-shell table `get_sys_shell` actually implements: only
bash, dash, fish and zsh are recognized. -/
def shellOfComp (s : List Char) : Shell :=
  if s = "bash".data then Shell.bash
  else if s = "dash".data then Shell.dash
  else if s = "fish".data then Shell.fish
  else if s = "zsh".data then Shell.zsh
  else Shell.none

/-- Model of `get_sys_shell` (src/init.c:61-87).  The argument is the
result of `readlinkat(AT_FDCWD, "/bin/sh", ...)`: `none` when the call
fails, otherwise the link target read into the buffer (the empty
target and the failed call both yield `SHELL_NONE`). -/
def get_sys_shell (target : Option String) : Shell :=
  match target with
  | Option.none => Shell.none
  | some t =>
    if t.data = [] then Shell.none
    else
      let s := sysShellComp t.data
      if s = "bash".data then Shell.bash
      else if s = "dash".data then Shell.dash
      else if s = "fish".data then Shell.fish
      else if s = "zsh".data then Shell.zsh
      else Shell.none

/-- C6 counterexample: a `/bin/sh` link whose target's last component
is exactly `ksh` yields `SHELL_NONE`, not `SHELL_KSH` as the claim
requires (the same holds for `tcsh`); `get_sys_shell` has no case for
either shell. -/
theorem C6_counterexample :
    get_sys_shell (some "ksh") = Shell.none
    ∧ get_sys_shell (some "/bin/tcsh") = Shell.none
    ∧ Shell.none ≠ Shell.ksh ∧ Shell.none ≠ Shell.tcsh := by
  refine ⟨by decide, by decide, by decide, by decide⟩

theorem shellOfComp_not_ksh_tcsh (l : List Char) :
    shellOfComp l ≠ Shell.ksh ∧ shellOfComp l ≠ Shell.tcsh := by
  unfold shellOfComp
  split_ifs <;> exact ⟨by decide, by decide⟩

/-- C6 amended: `get_sys_shell` maps the component after the last '/'
of the readlink target (the whole target when the target is empty,
has no '/', or ends in '/') through a table that recognizes only
bash, dash, fish and zsh, and returns `SHELL_NONE` in every other
case — in particular it never returns ksh or tcsh. -/
theorem C6_amended (t : Option String) :
    get_sys_shell t =
      (match t with
       | Option.none => Shell.none
       | some s => if s.data = [] then Shell.none else shellOfComp (sysShellComp s.data))
    ∧ get_sys_shell t ≠ Shell.ksh ∧ get_sys_shell t ≠ Shell.tcsh := by
  cases t with
  | none => exact ⟨rfl, by decide, by decide⟩
  | some s =>
    have he : get_sys_shell (some s)
        = if s.data = [] then Shell.none else shellOfComp (sysShellComp s.data) := rfl
    refine ⟨he, ?_, ?_⟩
    · rw [he]; split
      · decide
      · exact (shellOfComp_not_ksh_tcsh _).1
    · rw [he]; split
      · decide
      · exact (shellOfComp_not_ksh_tcsh _).2

/-! ## get_last_path (src/init.c:1913-1959), claim C10 -/

/-- Workspace restore state: the `workspaces[i].path` pointers
(`none` = NULL) and `cur_ws` (`none` = UNSET). -/
structure LastSt where
  workspaces : List (Option String)
  cur_ws : Option Int
  deriving DecidableEq, Repr

/-- Workspace number of a `.last` line: its first character (after a
leading '*' was consumed) minus '0'. -/
def wsNum (p : List Char) : Int :=
  (Int.ofNat (p.headD ' ').toNat) - (Int.ofNat '0'.toNat)

/-- The guarded `workspaces[ws_n].path = savestring(p + 2, ...)`
assignment of `get_last_path` (src/init.c:1952-1953). -/
def procLastSet (maxWs : Nat) (st : LastSt) (n : Int) (path : List Char) : LastSt :=
  if 0 ≤ n ∧ n < (maxWs : Int) ∧ st.workspaces.get? n.toNat = some Option.none then
    { st with workspaces := st.workspaces.set n.toNat (some (String.mk path)) }
  else st

/-- The line processing after the leading '*' has been consumed
(src/init.c:1948-1953): maybe adopt `cur_ws`, then maybe assign the
workspace path. -/
def procLastCore (maxWs : Nat) (st : LastSt) (cur : Bool) (p : List Char) : LastSt :=
  if cur ∧ p = [] then st
  else
    procLastSet maxWs
      (if cur ∧ st.cur_ws = Option.none then { st with cur_ws := some (wsNum p) } else st)
      (wsNum p) (p.drop 2)

/-- Body of the `while (fgets ...)` loop of `get_last_path`
(src/init.c:1930-1954) for one line of the `.last` file; lines are
taken without their trailing newline, and `maxWs` is the `MAX_WS`
constant. -/
def procLastLine (maxWs : Nat) (st : LastSt) (line : List Char) : LastSt :=
  if ¬ line.contains '/' then st
  else if ¬ line.contains ':' then st
  else
    match line with
    | '*' :: rest => procLastCore maxWs st true rest
    | _ => procLastCore maxWs st false line

/-- Model of `get_last_path` (src/init.c:1913-1959): fold the
per-line processing over the lines of `.last`. -/
def get_last_path (maxWs : Nat) (st : LastSt) (lines : List (List Char)) : LastSt :=
  lines.foldl (procLastLine maxWs) st

/-- Initial state used by the C10 counterexample: eight empty
workspaces, `cur_ws` unset. -/
def c10st : LastSt := ⟨List.replicate 8 Option.none, Option.none⟩

/-- C10 counterexample: with `MAX_WS = 8`, the line `*9:/x` carries
workspace number 9, which is outside `0..MAX_WS-1`, so by the claim
the line is ignored; but `get_last_path` still sets `cur_ws` to 9
from it (the range check guards only the path assignment). -/
theorem C10_counterexample :
    (get_last_path 8 c10st ["*9:/x".data]).cur_ws = some 9
    ∧ c10st.cur_ws = Option.none
    ∧ ¬ ((9 : Int) < (8 : Nat)) := by
  refine ⟨by decide, rfl, by decide⟩

theorem procLastSet_frame (maxWs : Nat) (st : LastSt) (n : Int) (path : List Char) :
    ((procLastSet maxWs st n path).workspaces.length = st.workspaces.length)
    ∧ (∀ i p, st.workspaces.get? i = some (some p) →
        (procLastSet maxWs st n path).workspaces.get? i = some (some p))
    ∧ ((procLastSet maxWs st n path).cur_ws = st.cur_ws)
    ∧ (∀ i, maxWs ≤ i →
        (procLastSet maxWs st n path).workspaces.get? i = st.workspaces.get? i) := by
  unfold procLastSet
  split
  · next hc =>
    refine ⟨by simp, ?_, rfl, ?_⟩
    · intro i p hp
      show (st.workspaces.set n.toNat (some (String.mk path))).get? i = some (some p)
      rcases eq_or_ne n.toNat i with he | he
      · rw [he] at hc
        exact absurd (hp.symm.trans hc.2.2) (by simp)
      · rw [List.get?_set_ne _ _ he]; exact hp
    · intro i hi
      show (st.workspaces.set n.toNat (some (String.mk path))).get? i = st.workspaces.get? i
      have he : n.toNat ≠ i := by
        have h1 : n < (maxWs : Int) := hc.2.1
        have h0 : (0 : Int) ≤ n := hc.1
        omega
      rw [List.get?_set_ne _ _ he]
  · exact ⟨rfl, fun _ _ h => h, rfl, fun _ _ => rfl⟩

theorem procLastCore_frame (maxWs : Nat) (st : LastSt) (cur : Bool) (p : List Char) :
    ((procLastCore maxWs st cur p).workspaces.length = st.workspaces.length)
    ∧ (∀ i q, st.workspaces.get? i = some (some q) →
        (procLastCore maxWs st cur p).workspaces.get? i = some (some q))
    ∧ (∀ w, st.cur_ws = some w → (procLastCore maxWs st cur p).cur_ws = some w)
    ∧ (∀ i, maxWs ≤ i →
        (procLastCore maxWs st cur p).workspaces.get? i = st.workspaces.get? i) := by
  unfold procLastCore
  split
  · exact ⟨rfl, fun _ _ h => h, fun _ h => h, fun _ _ => rfl⟩
  · set st1 := if cur = true ∧ st.cur_ws = Option.none
        then { st with cur_ws := some (wsNum p) } else st with hst1
    have hmid : st1.workspaces = st.workspaces
        ∧ (∀ w, st.cur_ws = some w → st1.cur_ws = some w) := by
      rw [hst1]; split
      · next h => exact ⟨rfl, fun w hw => absurd hw (by rw [h.2]; simp)⟩
      · exact ⟨rfl, fun _ h => h⟩
    have hs := procLastSet_frame maxWs st1 (wsNum p) (p.drop 2)
    refine ⟨?_, ?_, ?_, ?_⟩
    · rw [hs.1, hmid.1]
    · intro i q hq
      apply hs.2.1
      rw [hmid.1]; exact hq
    · intro w hw
      rw [hs.2.2.1]; exact hmid.2 w hw
    · intro i hi
      rw [hs.2.2.2 i hi, hmid.1]

theorem procLastLine_frame (maxWs : Nat) (st : LastSt) (line : List Char) :
    ((procLastLine maxWs st line).workspaces.length = st.workspaces.length)
    ∧ (∀ i p, st.workspaces.get? i = some (some p) →
        (procLastLine maxWs st line).workspaces.get? i = some (some p))
    ∧ (∀ w, st.cur_ws = some w → (procLastLine maxWs st line).cur_ws = some w)
    ∧ (∀ i, maxWs ≤ i →
        (procLastLine maxWs st line).workspaces.get? i = st.workspaces.get? i) := by
  unfold procLastLine
  split
  · exact ⟨rfl, fun _ _ h => h, fun _ h => h, fun _ _ => rfl⟩
  · split
    · exact ⟨rfl, fun _ _ h => h, fun _ h => h, fun _ _ => rfl⟩
    · split
      · exact procLastCore_frame maxWs st true _
      · exact procLastCore_frame maxWs st false _

/-- C10 amended: `get_last_path` never overwrites a workspace path
that is already set, never changes `cur_ws` once it is set, preserves
the length of the workspace table, and never touches entries at or
beyond `MAX_WS`; however a '*'-marked line sets `cur_ws` (when still
unset) to its single-character workspace number even when that number
is outside `0..MAX_WS-1`. -/
theorem C10_amended (maxWs : Nat) (st : LastSt) (lines : List (List Char)) :
    ((get_last_path maxWs st lines).workspaces.length = st.workspaces.length)
    ∧ (∀ i p, st.workspaces.get? i = some (some p) →
        (get_last_path maxWs st lines).workspaces.get? i = some (some p))
    ∧ (∀ w, st.cur_ws = some w → (get_last_path maxWs st lines).cur_ws = some w)
    ∧ (∀ i, maxWs ≤ i →
        (get_last_path maxWs st lines).workspaces.get? i = st.workspaces.get? i) := by
  induction lines generalizing st with
  | nil => exact ⟨rfl, fun _ _ h => h, fun _ h => h, fun _ _ => rfl⟩
  | cons l rest ih =>
    have h1 := procLastLine_frame maxWs st l
    have h2 := ih (procLastLine maxWs st l)
    refine ⟨?_, ?_, ?_, ?_⟩
    · exact h2.1.trans h1.1
    · exact fun i p hp => h2.2.1 i p (h1.2.1 i p hp)
    · exact fun w hw => h2.2.2.1 w (h1.2.2.1 w hw)
    · exact fun i hi => (h2.2.2.2 i hi).trans (h1.2.2.2 i hi)

/-- C10 amended, witness: a concrete run in which workspace 0 is
already set and `cur_ws` is already 0; loading a line for workspace 1
leaves both untouched. -/
theorem C10_amended_witness :
    (get_last_path 8 ⟨[some "/a", Option.none], some 0⟩ ["1:/b".data]).workspaces.get? 0
        = some (some "/a")
    ∧ (get_last_path 8 ⟨[some "/a", Option.none], some 0⟩ ["1:/b".data]).cur_ws = some 0 := by
  have h := C10_amended 8 ⟨[some "/a", Option.none], some 0⟩ ["1:/b".data]
  exact ⟨h.2.1 0 "/a" rfl, h.2.2.1 0 rfl⟩

/-! ## load_jumpdb (src/init.c:409-541), claim C7 -/

/-- One record of the in-memory jump database (`struct jump_t`
fields assigned by `load_jumpdb`; the `keep` and `rank` fields are
always initialized to 0 there and are omitted). -/
structure JumpEntry where
  visits : Int
  first_visit : Int
  last_visit : Int
  path : String
  deriving DecidableEq, Repr

/-- Does a line start with a decimal digit?  The first reading pass
of `load_jumpdb` (src/init.c:428-431) counts exactly these lines. -/
def digitStart (line : List Char) : Bool :=
  match line with
  | [] => false
  | a :: _ => isDigitC a

/-- Record-line parse of the second reading loop of `load_jumpdb`
(src/init.c:447-524) for a line that is not blank, a '#' comment or
an '@' rank header: split `visits:first_visit:last_visit:path` at the
first three ':' occurrences and keep the record only when the path
passes the `access(path, F_OK)` existence check `ex`.  `isNum` is
clifm's `is_number` (aux.c, not part of this source snapshot), passed
as an oracle; a non-numeric field falls back to 1 (visits) or 0
(visit times).  Lines are taken without their trailing newline. -/
def parseRecord (isNum : List Char → Bool) (ex : String → Bool)
    (line : List Char) : Option JumpEntry :=
  match line with
  | [] => none
  | a :: _ =>
    if ¬ isDigitC a then none
    else
      match splitChr ':' line with
      | none => none
      | some (f1, r1) =>
        if r1 = [] then none
        else
          match splitChr ':' r1 with
          | none => none
          | some (f2, r2) =>
            if r2 = [] then none
            else
              match splitChr ':' r2 with
              | none => none
              | some (f3, p) =>
                if p = [] then none
                else if ¬ ex (String.mk p) then none
                else
                  some ⟨if isNum f1 then atoiC f1 else 1,
                        if isNum f2 then atoiC f2 else 0,
                        if isNum f3 then atoiC f3 else 0,
                        String.mk p⟩

/-- The `@total-rank` header handling of one line
(src/init.c:450-458): a numeric '@' line overwrites the running
`jump_total_rank`. -/
def rankStep (isNum : List Char → Bool) (r : Option Int) (line : List Char) : Option Int :=
  match line with
  | [] => r
  | a :: rest => if a == '@' then (if isNum rest then some (atoiC rest) else r) else r

/-- One iteration of the second reading loop of `load_jumpdb`
(src/init.c:447-524): skip blank and '#' lines, handle '@' rank
headers, and append parsed records. -/
def jumpLineStep (isNum : List Char → Bool) (ex : String → Bool)
    (acc : Option Int × List JumpEntry) (line : List Char) : Option Int × List JumpEntry :=
  match line with
  | [] => acc
  | a :: rest =>
    if a == '#' then acc
    else if a == '@' then
      (if isNum rest then some (atoiC rest) else acc.1, acc.2)
    else
      match parseRecord isNum ex line with
      | some e => (acc.1, acc.2 ++ [e])
      | none => acc

/-- Model of `load_jumpdb` (src/init.c:409-541): if no line starts
with a digit the function returns before reading anything (the
`if (!jump_lines)` early return of src/init.c:433-437); otherwise
the file is folded line by line.  The first component is the final
`jump_total_rank` assignment (`none` when never assigned), the second
the loaded records in order. -/
def load_jumpdb (isNum : List Char → Bool) (ex : String → Bool)
    (lines : List (List Char)) : Option Int × List JumpEntry :=
  if lines.countP (fun l => digitStart l) = 0 then (none, [])
  else lines.foldl (jumpLineStep isNum ex) (none, [])

theorem parseRecord_ex (isNum : List Char → Bool) (ex : String → Bool)
    (line : List Char) (e : JumpEntry) (h : parseRecord isNum ex line = some e) :
    ex e.path = true := by
  unfold parseRecord at h
  repeat' split at h
  all_goals cases h
  all_goals simp_all

theorem jumpLineStep_eq (isNum : List Char → Bool) (ex : String → Bool)
    (acc : Option Int × List JumpEntry) (l : List Char) :
    jumpLineStep isNum ex acc l
      = (rankStep isNum acc.1 l, acc.2 ++ (parseRecord isNum ex l).toList) := by
  obtain ⟨r, es⟩ := acc
  unfold jumpLineStep rankStep
  cases l with
  | nil => simp [parseRecord]
  | cons a rest =>
    simp only
    by_cases h1 : a == '#'
    · have ha : a = '#' := by simpa using h1
      subst ha
      have hd : isDigitC '#' = false := by decide
      simp [parseRecord, hd]
    · by_cases h2 : a == '@'
      · have ha : a = '@' := by simpa using h2
        subst ha
        have hd : isDigitC '@' = false := by decide
        simp [parseRecord, hd]
      · simp only [h1, h2, if_neg, Bool.false_eq_true, ite_false]
        cases hp : parseRecord isNum ex (a :: rest) <;> simp [hp]

theorem jumpFold_eq (isNum : List Char → Bool) (ex : String → Bool)
    (lines : List (List Char)) (acc : Option Int × List JumpEntry) :
    lines.foldl (jumpLineStep isNum ex) acc
      = (lines.foldl (rankStep isNum) acc.1,
         acc.2 ++ lines.filterMap (parseRecord isNum ex)) := by
  induction lines generalizing acc with
  | nil => simp
  | cons l rest ih =>
    rw [List.foldl_cons, List.foldl_cons, List.filterMap_cons, jumpLineStep_eq, ih]
    cases hp : parseRecord isNum ex l <;> simp [hp]

/-- C7 amended: provided the jump file has at least one record line
(a line starting with a decimal digit — otherwise `load_jumpdb`
returns early and reads nothing, not even the rank header),
`load_jumpdb` reads the total rank from the numeric '@' lines (the
last one wins), parses the digit-led record lines as the four
colon-separated fields `visits:first_visit:last_visit:path`, drops
records whose path fails the existence check, and ignores '#' lines
entirely; every loaded entry's path exists. -/
theorem C7_amended (isNum : List Char → Bool) (ex : String → Bool)
    (lines : List (List Char)) :
    (∀ e ∈ (load_jumpdb isNum ex lines).2, ex e.path = true)
    ∧ (lines.countP (fun l => digitStart l) ≠ 0 →
        load_jumpdb isNum ex lines
          = (lines.foldl (rankStep isNum) Option.none,
             lines.filterMap (parseRecord isNum ex)))
    ∧ (lines.countP (fun l => digitStart l) = 0 →
        load_jumpdb isNum ex lines = (Option.none, []))
    ∧ (∀ l r, l.headD ' ' = '#' → l ≠ [] →
        parseRecord isNum ex l = none ∧ rankStep isNum r l = r) := by
  refine ⟨?_, ?_, ?_, ?_⟩
  · intro e he
    unfold load_jumpdb at he
    split at he
    · simp at he
    · rw [jumpFold_eq] at he
      simp only [List.nil_append] at he
      obtain ⟨l, _, hl⟩ := List.mem_filterMap.mp he
      exact parseRecord_ex isNum ex l e hl
  · intro h
    unfold load_jumpdb
    rw [if_neg h, jumpFold_eq]
    simp
  · intro h
    unfold load_jumpdb
    rw [if_pos h]
  · intro l r hh hne
    cases l with
    | nil => exact absurd rfl hne
    | cons a rest =>
      simp only [List.headD_cons] at hh
      subst hh
      constructor
      · have hd : isDigitC '#' = false := by decide
        simp [parseRecord, hd]
      · simp [rankStep]

/-- C7 counterexample: a jump file consisting of the single line
`@50` has a rank header but no record line, so `load_jumpdb` returns
before reading it: `jump_total_rank` is never assigned (first
component `none`), although the claim requires the total rank to be
read from the '@' line of every input file. -/
theorem C7_counterexample :
    load_jumpdb (fun l => l.all isDigitC) (fun _ => true) ["@50".data] = (Option.none, [])
    ∧ "@50".data.headD ' ' = '@'
    ∧ ("@50".data.drop 1).all isDigitC = true
    ∧ atoiC ("@50".data.drop 1) = 50 := by
  refine ⟨by decide, by decide, by decide, by decide⟩

/-- C7 amended, witness: a three-line file with a comment, one valid
record and a rank header loads exactly that record (whose path passes
the existence check) and the rank 7. -/
theorem C7_amended_witness :
    load_jumpdb (fun l => l.all isDigitC) (fun _ => true)
        ["#c".data, "1:2:3:/a".data, "@7".data]
      = (some 7, [⟨1, 2, 3, "/a"⟩]) := by
  have h := (C7_amended (fun l => l.all isDigitC) (fun _ => true)
      ["#c".data, "1:2:3:/a".data, "@7".data]).2.1 (by decide)
  rw [h]
  decide

/-! ## count_words (src/suggestions.c:1249-1286), claim C8 -/

/-- Accumulator of the `count_words` scan: the local variables
`words`, `first_non_space` and `q`, the two out-parameters
`start_word` and `full_word`, and the global `rl_last_word_start`. -/
structure CWAcc where
  words : Nat
  start_word : Nat
  full_word : Nat
  fns : Bool
  q : Option Char
  lws : Nat
  deriving DecidableEq, Repr

/-- The `for (; b[w]; w++)` loop of `count_words`
(src/suggestions.c:1255-1283).  `prev` is `b[w-1]` (`none` at
`w = 0`, so `w > 0` guards become matches on `prev`), `rest.head?`
plays `b[w+1]` (`none` standing for the NUL terminator) and `hq`
states whether `cur_color == hq_c`. -/
def cwLoop (hq : Bool) : Nat → Option Char → List Char → CWAcc → CWAcc
  | _, _, [], acc => acc
  | w, prev, c :: rest, acc =>
    let acc := if c == '\'' || c == '"' then
        { acc with q := if acc.q == some c then Option.none else some c } else acc
    if !acc.fns && c != ' ' then
      cwLoop hq (w + 1) (some c) rest { acc with words := 1, start_word := w, fns := true }
    else
      let acc :=
        match prev with
        | some p =>
          if c == ' ' && p != '\\' then
            let acc := if rest.head?.isSome && rest.head? != some ' '
              then { acc with lws := w + 1 } else acc
            let acc := if acc.full_word == 0 && p != '|' && p != ';' && p != '&'
              then { acc with full_word := w } else acc
            if rest.head?.isSome && rest.head? != some ' '
              then { acc with words := acc.words + 1 } else acc
          else acc
        | Option.none => acc
      let acc :=
        match prev with
        | some p =>
          if acc.q == Option.none && !hq && p != '\\'
             && ((c == '&' && p == '&') || c == '|' || c == ';') then
            { acc with words := 0, fns := false, full_word := 0 }
          else acc
        | Option.none => acc
      cwLoop hq (w + 1) (some c) rest acc

/-- State visible to `count_words`: the readline buffer, whether the
current color is the heredoc color `hq_c`, and the global it writes,
`rl_last_word_start`. -/
structure CWState where
  buffer : List Char
  hqColor : Bool
  lws : Nat
  deriving DecidableEq, Repr

/-- The three word-decomposition results of `count_words`: its return
value and its two out-parameters (initialized to 0 by the caller,
src/suggestions.c:1486). -/
structure CWOut where
  words : Nat
  start_word : Nat
  full_word : Nat
  deriving DecidableEq, Repr

/-- Model of `count_words` (src/suggestions.c:1249-1286): reset
`rl_last_word_start`, scan the buffer (which is only read), return
the decomposition and write back `rl_last_word_start`. -/
def count_words (st : CWState) : CWOut × CWState :=
  let acc := cwLoop st.hqColor 0 Option.none st.buffer ⟨0, 0, 0, false, Option.none, 0⟩
  (⟨acc.words, acc.start_word, acc.full_word⟩, { st with lws := acc.lws })

/-- C8: running `count_words` twice on an unchanged buffer yields the
same word count, first-word start, first-full-word end and last-word
start both times, and neither run modifies the buffer (or the color
state it reads). -/
theorem C8_count_words_idem (st : CWState) :
    ((count_words st).2.buffer = st.buffer)
    ∧ ((count_words st).2.hqColor = st.hqColor)
    ∧ (count_words ((count_words st).2)).1 = (count_words st).1
    ∧ (count_words ((count_words st).2)).2 = (count_words st).2 := by
  refine ⟨rfl, rfl, rfl, rfl⟩

/-! ## check_eln (src/suggestions.c:1031-1064), claims C3 and C9 -/

/-- One entry of the directory-listing cache (`file_info`); entries
below `files` are materialized, so the `!file_info[n - 1].name`
NULL-pointer guard of the source never fires and is not
represented. -/
structure FileEntry where
  name : String
  dir : Bool
  deriving DecidableEq, Repr

/-- Global state read by `check_eln`: the listing cache (`files` is
its length), the word count of the current line, and the `autocd` /
`auto_open` configuration flags. -/
structure ElnEnv where
  file_info : List FileEntry
  nwords : Nat
  autocd : Bool
  auto_open : Bool
  deriving Repr

/-- Return values `NO_MATCH` / `PARTIAL_MATCH` / `FULL_MATCH` of the
suggestion checkers (src/suggestions.c:66-68). -/
inductive MRes
  | noM
  | pM
  | fM
  deriving DecidableEq, Repr

/-- Model of `check_eln` (src/suggestions.c:1031-1064): `atoi` the
word; reject unless `1 <= n <= files`; when the line has exactly one
word additionally require a directory entry to have `autocd` and a
non-directory entry to have `auto_open`; otherwise report a full
match in check mode or print the entry (with '/' appended for a
directory) and report a partial match. -/
def check_eln (env : ElnEnv) (str : String) (printIt : Bool) : MRes :=
  if str.data = [] then .noM
  else
    let n : Int := atoiS str
    if n < 1 ∨ (env.file_info.length : Int) < n then .noM
    else
      match env.file_info.get? (n - 1).toNat with
      | Option.none => .noM
      | some e =>
        if env.nwords = 1 ∧ ((e.dir = true ∧ env.autocd = false)
            ∨ (e.dir = false ∧ env.auto_open = false)) then .noM
        else if printIt then .pM else .fM

theorem check_eln_get (env : ElnEnv) (n : Int) (h3 : 1 ≤ n)
    (h4 : n ≤ (env.file_info.length : Int)) :
    ∃ e, env.file_info.get? (n - 1).toNat = some e := by
  have hlt : (n - 1).toNat < env.file_info.length := by omega
  exact ⟨env.file_info.get ⟨(n - 1).toNat, hlt⟩, List.get?_eq_get hlt⟩

/-- C3: for a first word that is a bare positive integer `n` (first
words reach `check_eln` only on one-word lines, where
`rl_suggestions` passes `first_word` — src/suggestions.c:1835-1837 —
so `nwords = 1`), the word is treated as an ELN exactly when the
listing cache has an `n`-th entry and that entry is a directory only
with `autocd` enabled, or a non-directory only with `auto_open`
enabled; in every other case `check_eln` reports `NO_MATCH`. -/
theorem C3_eln_gate (env : ElnEnv) (str : String) (n : Int) (printIt : Bool)
    (h1 : env.nwords = 1) (h2 : atoiS str = n) (h3 : 1 ≤ n) (h0 : str.data ≠ []) :
    check_eln env str printIt ≠ .noM ↔
      ∃ e, env.file_info.get? (n - 1).toNat = some e
        ∧ n ≤ (env.file_info.length : Int)
        ∧ (e.dir = true → env.autocd = true)
        ∧ (e.dir = false → env.auto_open = true) := by
  unfold check_eln
  rw [if_neg h0, h2]
  constructor
  · intro hne
    by_cases h4 : n < 1 ∨ (env.file_info.length : Int) < n
    · rw [if_pos h4] at hne; exact absurd rfl hne
    · rw [if_neg h4] at hne
      push_neg at h4
      obtain ⟨e, he⟩ := check_eln_get env n h3 h4.2
      simp only [he] at hne
      refine ⟨e, he, h4.2, ?_, ?_⟩
      · intro hd
        by_contra hc
        exact hne (if_pos ⟨h1, Or.inl ⟨hd, by simpa using hc⟩⟩)
      · intro hd
        by_contra hc
        exact hne (if_pos ⟨h1, Or.inr ⟨hd, by simpa using hc⟩⟩)
  · rintro ⟨e, he, hle, hdir, hfile⟩
    have h4 : ¬ (n < 1 ∨ (env.file_info.length : Int) < n) := by omega
    rw [if_neg h4]
    simp only [he]
    have hg : ¬ (env.nwords = 1 ∧ ((e.dir = true ∧ env.autocd = false)
        ∨ (e.dir = false ∧ env.auto_open = false))) := by
      rintro ⟨-, hbad | hbad⟩
      · rw [hdir hbad.1] at hbad; exact absurd hbad.2 (by simp)
      · rw [hfile hbad.1] at hbad; exact absurd hbad.2 (by simp)
    rw [if_neg hg]
    cases printIt <;> simp

/-- C3 witness: with a one-word line, one directory entry and
`autocd` on, the word `1` is accepted as an ELN. -/
theorem C3_eln_gate_witness :
    check_eln ⟨[⟨"a", true⟩], 1, true, false⟩ "1" true ≠ .noM := by
  have h := C3_eln_gate ⟨[⟨"a", true⟩], 1, true, false⟩ "1" 1 true rfl (by decide)
    (by decide) (by decide)
  exact h.mpr ⟨⟨"a", true⟩, by decide, by decide, fun _ => rfl, by simp⟩

/-- C9: when the line has more than one word, `check_eln` accepts any
integer `1 <= n <= files` regardless of `autocd` and `auto_open`: the
directory-requires-autocd / file-requires-auto-open gate is tied to
`nwords == 1` (src/suggestions.c:1039). -/
theorem C9_eln_multiword (env : ElnEnv) (str : String) (n : Int) (printIt : Bool)
    (h1 : 1 < env.nwords) (h2 : atoiS str = n) (h0 : str.data ≠ []) :
    check_eln env str printIt ≠ .noM ↔
      (1 ≤ n ∧ n ≤ (env.file_info.length : Int)) := by
  unfold check_eln
  rw [if_neg h0, h2]
  constructor
  · intro hne
    by_cases h4 : n < 1 ∨ (env.file_info.length : Int) < n
    · rw [if_pos h4] at hne; exact absurd rfl hne
    · push_neg at h4; exact ⟨h4.1, h4.2⟩
  · rintro ⟨h3, hle⟩
    have h4 : ¬ (n < 1 ∨ (env.file_info.length : Int) < n) := by omega
    rw [if_neg h4]
    obtain ⟨e, he⟩ := check_eln_get env n h3 hle
    simp only [he]
    have hg : ¬ (env.nwords = 1 ∧ ((e.dir = true ∧ env.autocd = false)
        ∨ (e.dir = false ∧ env.auto_open = false))) := by
      rintro ⟨hn, -⟩; omega
    rw [if_neg hg]
    cases printIt <;> simp

/-- C9 witness: on a two-word line, ELN `1` is accepted although both
`autocd` and `auto_open` are disabled. -/
theorem C9_eln_multiword_witness :
    check_eln ⟨[⟨"a", true⟩], 2, false, false⟩ "1" true ≠ .noM := by
  have h := C9_eln_multiword ⟨[⟨"a", true⟩], 2, false, false⟩ "1" 1 true (by decide)
    (by decide) (by decide)
  exact h.mpr ⟨by decide, by decide⟩

/-! ## check_history (src/suggestions.c:739-766), claim C4 -/

/-- Result of the history check: no match, a partial match carrying
the full text of the matched entry (printed from offset `len` and
suggested with engine offset 0), or a full match (nothing printed). -/
inductive HistRes
  | noM
  | pM (text : String)
  | fM
  deriving DecidableEq, Repr

theorem prefCase_second (cs : Bool) (a b a1 b1 : Char) (as bs : List Char)
    (h : prefCase cs (a :: a1 :: as) (b :: b1 :: bs) = true) :
    toUpperC a1 = toUpperC b1 := by
  cases cs with
  | true =>
    simp [prefCase, isPref] at h
    rw [h.2.1]
  | false =>
    simp [prefCase, isPref] at h
    exact h.2.1

/-- The second quick check of `check_history` (src/suggestions.c:750-752):
`len > 1 && *(cmd + 1) && TOUPPER(*(str + 1)) != TOUPPER(*(cmd + 1))`,
on the tails of the line and of the entry. -/
def histQuick2 (ls hs : List Char) : Bool :=
  match ls, hs with
  | l1 :: _, h1 :: _ => toUpperC l1 != toUpperC h1
  | _, _ => false

/-- The history-array scan of `check_history`
(src/suggestions.c:745-763), iterating from `current_hist_n - 1` down
to 0: the argument list is already in scan order (most recent entry
first).  Per entry: the two case-insensitive quick checks on the
first and second characters, then the `strncmp`/`strncasecmp` prefix
test on `len = rl_end` characters; a strictly longer entry is a
partial match carrying its full text, an equal one a full match. -/
def check_history_scan (cs : Bool) (line : List Char) : List (List Char) → HistRes
  | [] => .noM
  | h :: rest =>
    match line, h with
    | lc :: ls, hc :: hs =>
      if toUpperC lc != toUpperC hc then check_history_scan cs line rest
      else if histQuick2 ls hs then check_history_scan cs line rest
      else if strncmpCase cs line h line.length then
        if line.length < h.length then .pM (String.mk h) else .fM
      else check_history_scan cs line rest
    | _, _ => check_history_scan cs line rest

/-- Global state read by `check_history`: the configured case
sensitivity (`case_sens_path_comp`) and the history array, oldest
entry first (entries are non-NULL). -/
structure HistEnv where
  caseSens : Bool
  hist : List String
  deriving DecidableEq, Repr

/-- Model of `check_history` (src/suggestions.c:739-766), called by
`rl_suggestions` on the full line with `len = rl_end`. -/
def check_history (env : HistEnv) (line : String) : HistRes :=
  if line.data = [] then .noM
  else check_history_scan env.caseSens line.data (env.hist.map String.data).reverse

/-- The `'h'` strategy case of `rl_suggestions`
(src/suggestions.c:1897-1903) with the `SUCCESS` epilogue
(src/suggestions.c:2011): a partial history match is suggested whole,
with `suggestion.offset` forced to 0 by `zero_offset`. -/
def historyStrategy (env : HistEnv) (line : String) : Option (String × Nat) :=
  match check_history env line with
  | .pM t => some (t, 0)
  | _ => Option.none

theorem check_history_scan_cons (cs : Bool) (lc hc : Char) (ls hs : List Char)
    (rest : List (List Char)) :
    check_history_scan cs (lc :: ls) ((hc :: hs) :: rest)
      = (if toUpperC lc != toUpperC hc then check_history_scan cs (lc :: ls) rest
         else if histQuick2 ls hs then check_history_scan cs (lc :: ls) rest
         else if strncmpCase cs (lc :: ls) (hc :: hs) (lc :: ls).length then
           (if (lc :: ls).length < (hc :: hs).length then .pM (String.mk (hc :: hs)) else .fM)
         else check_history_scan cs (lc :: ls) rest) := rfl

theorem check_history_scan_eq (cs : Bool) (lc : Char) (ls : List Char)
    (l : List (List Char)) :
    check_history_scan cs (lc :: ls) l =
      (match l.find? (fun h => prefCase cs (lc :: ls) h) with
       | Option.none => .noM
       | some h => if (lc :: ls).length < h.length then HistRes.pM (String.mk h)
                   else HistRes.fM) := by
  induction l with
  | nil => rfl
  | cons h rest ih =>
    by_cases hp : prefCase cs (lc :: ls) h = true
    · rw [List.find?_cons_of_pos _ hp]
      cases h with
      | nil => rw [prefCase_nil_right] at hp; cases hp
      | cons hc hs =>
        have h1 : (toUpperC lc != toUpperC hc) = false := by
          by_cases hne : toUpperC lc = toUpperC hc
          · simp [hne]
          · rw [prefCase_head cs lc hc ls hs hne] at hp; cases hp
        have h2 : histQuick2 ls hs = false := by
          unfold histQuick2
          cases ls with
          | nil => rfl
          | cons l1 ls1 =>
            cases hs with
            | nil => rfl
            | cons hh1 hs1 =>
              have := prefCase_second cs lc hc l1 hh1 ls1 hs1 hp
              simp [this]
        have hmain : strncmpCase cs (lc :: ls) (hc :: hs) (lc :: ls).length = true := by
          rw [strncmpCase_length]; exact hp
        rw [check_history_scan_cons, h1, h2, hmain]
        simp
    · rw [List.find?_cons_of_neg _ hp]
      cases h with
      | nil => exact ih
      | cons hc hs =>
        have hmain : strncmpCase cs (lc :: ls) (hc :: hs) (lc :: ls).length = false := by
          rw [strncmpCase_length]; simpa using hp
        rw [check_history_scan_cons, hmain]
        split_ifs <;> first | exact ih | simp_all

/-- C4 counterexample: with case-sensitive matching and history
`["git status", "gi"]` (oldest first, so `gi` is most recent), the
line `gi` is a strict prefix of the stored entry `git status`, yet
`check_history` reports a full match and suggests nothing: the
most-recent-first scan stops at the exact match `gi` before ever
considering the strict extension. -/
theorem C4_counterexample :
    isPref "gi".data "git status".data = true
    ∧ "gi".data ≠ "git status".data
    ∧ "git status" ∈ (⟨true, ["git status", "gi"]⟩ : HistEnv).hist
    ∧ check_history ⟨true, ["git status", "gi"]⟩ "gi" = .fM
    ∧ historyStrategy ⟨true, ["git status", "gi"]⟩ "gi" = Option.none := by
  refine ⟨by decide, by decide, by decide, by decide, by decide⟩

/-- C4 amended: `check_history` scans the history most-recent-first
and acts on the first entry of which the line is a prefix (per the
configured case sensitivity): if that entry is strictly longer, its
complete text is suggested and the engine's suggestion offset is 0;
if it equals the line, a full match is reported and no ghost text is
printed.  (The claim as stated fails when a more recent entry equals
the line exactly while only an older one strictly extends it.) -/
theorem C4_amended (env : HistEnv) (line : String) (h0 : line.data ≠ []) :
    (check_history env line =
      (match (env.hist.map String.data).reverse.find?
          (fun h => prefCase env.caseSens line.data h) with
       | Option.none => HistRes.noM
       | some h => if line.data.length < h.length then HistRes.pM (String.mk h)
                   else HistRes.fM))
    ∧ (∀ t off, historyStrategy env line = some (t, off) →
        off = 0 ∧ check_history env line = .pM t)
    ∧ (∀ t, check_history env line = .pM t → historyStrategy env line = some (t, 0)) := by
  refine ⟨?_, ?_, ?_⟩
  · cases hl : line.data with
    | nil => exact absurd hl h0
    | cons lc ls =>
      unfold check_history
      rw [if_neg h0, hl]
      exact check_history_scan_eq env.caseSens lc ls _
  · intro t off hs
    unfold historyStrategy at hs
    split at hs
    · next hc => cases hs; exact ⟨rfl, hc⟩
    · cases hs
  · intro t hc
    unfold historyStrategy
    rw [hc]

/-- C4 amended, witness: history `["git status -s"]`, line `gi`: the
full line `git status -s` is suggested at offset 0. -/
theorem C4_amended_witness :
    check_history ⟨true, ["git status -s"]⟩ "gi" = .pM "git status -s"
    ∧ historyStrategy ⟨true, ["git status -s"]⟩ "gi" = some ("git status -s", 0) := by
  have h := C4_amended ⟨true, ["git status -s"]⟩ "gi" (by decide)
  have h1 : check_history ⟨true, ["git status -s"]⟩ "gi" = .pM "git status -s" := by
    rw [h.1]; decide
  exact ⟨h1, h.2.2 "git status -s" h1⟩

/-! ## check_bookmarks (src/suggestions.c:977-1010), claim C5 -/

/-- Suggestion type constants assigned to `suggestion.type`. -/
inductive SugType
  | BOOKMARK_SUG | ALIAS_SUG | ELN_SUG | JCMD_SUG | JCMD_SUG_NOACD
  | BACKDIR_SUG | SORT_SUG | WS_NUM_SUG | COMP_SUG | FILE_SUG | HIST_SUG
  | CMD_SUG | INT_CMD | SEL_SUG | BM_NAME_SUG | WS_NAME_SUG | PROMPT_SUG
  | USER_SUG | VAR_SUG | TAGC_SUG | TAGS_SUG | TAGT_SUG
  deriving DecidableEq, Repr

/-- The suggestion types rendered in BAEJ style, exactly the list
tested by `calculate_suggestion_lines` (src/suggestions.c:194-197). -/
def isBaejType : SugType → Bool
  | .BOOKMARK_SUG | .ALIAS_SUG | .ELN_SUG | .JCMD_SUG
  | .JCMD_SUG_NOACD | .BACKDIR_SUG | .SORT_SUG | .WS_NUM_SUG => true
  | _ => false

/-- One bookmark: the short name pointer (NULL for path-only
bookmark lines) and the path. -/
structure Bookmark where
  name : Option String
  path : String
  deriving DecidableEq, Repr

/-- State read by the bookmark check: case sensitivity
(`case_sens_path_comp`), the bookmark array, the `lstat` oracle
(`none` = call fails, `some d` = succeeds with `S_ISDIR = d`) and the
`escape_str` oracle (strings.c, not part of this source snapshot;
`none` = NULL result, printed unescaped). -/
structure BmEnv where
  caseSens : Bool
  bookmarks : List Bookmark
  fstat : String → Option Bool
  esc : String → Option String

/-- Suggestion text of `print_bookmark_dir_suggestion`
(src/suggestions.c:935-954): the bookmark path with '/' appended
unless already present, passed through `escape_str`. -/
def bmDirText (env : BmEnv) (path : String) : String :=
  let t := if path.data ≠ [] ∧ path.data.getLast? ≠ some '/' then path ++ "/" else path
  match env.esc t with
  | some e1 => e1
  | Option.none => t

/-- Suggestion text of `print_bookmark_file_suggestion`
(src/suggestions.c:956-975): the path passed through `escape_str`. -/
def bmFileText (env : BmEnv) (path : String) : String :=
  match env.esc path with
  | some e1 => e1
  | Option.none => path

/-- Result of the bookmark check: no match, full match (check mode),
or a printed suggestion with its `suggestion.type`, text, and the
offset passed to `print_suggestion`. -/
inductive BmRes
  | noM
  | fM
  | pM (t : SugType) (text : String) (off : Nat)
  deriving DecidableEq, Repr

/-- The bookmark-array scan of `check_bookmarks`
(src/suggestions.c:983-1007), iterating from `bm_n - 1` down to 0:
the argument list is already in scan order.  Per entry: skip NULL
names, the case-insensitive first-character quick check, then either
the check-mode equality test or the print-mode prefix test followed
by `lstat`; directories and files are printed by the two printers
above, both at offset 0. -/
def check_bookmarks_scan (env : BmEnv) (word : List Char) (printIt : Bool) :
    List Bookmark → BmRes
  | [] => .noM
  | b :: rest =>
    match b.name with
    | Option.none => check_bookmarks_scan env word printIt rest
    | some nm =>
      match word, nm.data with
      | wc :: _, nc :: _ =>
        if toUpperC wc != toUpperC nc then check_bookmarks_scan env word printIt rest
        else if printIt = false then
          (if (if env.caseSens then word = nm.data
               else word.map toUpperC = nm.data.map toUpperC)
           then .fM else check_bookmarks_scan env word printIt rest)
        else if strncmpCase env.caseSens word nm.data word.length then
          match env.fstat b.path with
          | Option.none => check_bookmarks_scan env word printIt rest
          | some d =>
            if d then .pM .BOOKMARK_SUG (bmDirText env b.path) 0
            else .pM .BOOKMARK_SUG (bmFileText env b.path) 0
        else check_bookmarks_scan env word printIt rest
      | [], [] =>
        if printIt = false then .fM else check_bookmarks_scan env word printIt rest
      | _, _ => check_bookmarks_scan env word printIt rest

/-- Model of `check_bookmarks` (src/suggestions.c:977-1010). -/
def check_bookmarks (env : BmEnv) (word : String) (printIt : Bool) : BmRes :=
  check_bookmarks_scan env word.data printIt env.bookmarks.reverse

/-- Print-mode acceptance of one bookmark by the scan: it has a name,
the word is a (case-configured) prefix of that name, and `lstat` on
its path succeeds. -/
def bmAccept (env : BmEnv) (word : List Char) (b : Bookmark) : Bool :=
  match b.name with
  | Option.none => false
  | some nm => prefCase env.caseSens word nm.data && (env.fstat b.path).isSome

/-- Suggestion text for an accepted bookmark: its path, with '/'
ensured exactly when `lstat` reports a directory, escaped. -/
def bmText (env : BmEnv) (b : Bookmark) : String :=
  match env.fstat b.path with
  | some true => bmDirText env b.path
  | _ => bmFileText env b.path

theorem check_bookmarks_scan_eq (env : BmEnv) (wc : Char) (ws : List Char)
    (l : List Bookmark) :
    check_bookmarks_scan env (wc :: ws) true l =
      (match l.find? (bmAccept env (wc :: ws)) with
       | Option.none => BmRes.noM
       | some b => BmRes.pM .BOOKMARK_SUG (bmText env b) 0) := by
  induction l with
  | nil => rfl
  | cons b rest ih =>
    obtain ⟨bn, bp⟩ := b
    cases bn with
    | none =>
      rw [List.find?_cons_of_neg]
      · exact ih
      · simp [bmAccept]
    | some nm =>
      obtain ⟨nmd⟩ := nm
      cases nmd with
      | nil =>
        rw [List.find?_cons_of_neg]
        · exact ih
        · simp [bmAccept, prefCase_nil_right]
      | cons nc ns =>
        by_cases hacc : bmAccept env (wc :: ws) ⟨some ⟨nc :: ns⟩, bp⟩ = true
        · rw [List.find?_cons_of_pos _ hacc]
          have hand := hacc
          simp only [bmAccept, Bool.and_eq_true] at hand
          have hpf : prefCase env.caseSens (wc :: ws) (nc :: ns) = true := hand.1
          have hss : (env.fstat bp).isSome = true := hand.2
          have h1 : (toUpperC wc != toUpperC nc) = false := by
            by_cases hne : toUpperC wc = toUpperC nc
            · simp [hne]
            · rw [prefCase_head env.caseSens wc nc ws ns hne] at hpf; cases hpf
          have hmain : strncmpCase env.caseSens (wc :: ws) (nc :: ns)
              (wc :: ws).length = true := by
            rw [strncmpCase_length]; exact hpf
          obtain ⟨d, hd⟩ := Option.isSome_iff_exists.mp hss
          show (if toUpperC wc != toUpperC nc then check_bookmarks_scan env (wc :: ws) true rest
                else if (true : Bool) = false then _
                else if strncmpCase env.caseSens (wc :: ws) (nc :: ns) (wc :: ws).length then
                  match env.fstat bp with
                  | Option.none => check_bookmarks_scan env (wc :: ws) true rest
                  | some d =>
                    if d then BmRes.pM .BOOKMARK_SUG (bmDirText env bp) 0
                    else BmRes.pM .BOOKMARK_SUG (bmFileText env bp) 0
                else check_bookmarks_scan env (wc :: ws) true rest) = _
          rw [h1, hmain]
          simp only [Bool.false_eq_true, if_false, if_true, hd]
          cases d <;> simp [bmText, hd]
        · rw [List.find?_cons_of_neg _ hacc]
          by_cases h1 : (toUpperC wc != toUpperC nc) = true
          · show (if toUpperC wc != toUpperC nc then
                    check_bookmarks_scan env (wc :: ws) true rest
                  else _) = _
            rw [h1]
            simpa using ih
          · have hnpf : ¬ (prefCase env.caseSens (wc :: ws) (nc :: ns) = true
                ∧ (env.fstat bp).isSome = true) := by
              intro hcon
              exact hacc (by simp [bmAccept, hcon.1, hcon.2])
            show (if toUpperC wc != toUpperC nc then
                    check_bookmarks_scan env (wc :: ws) true rest
                  else if (true : Bool) = false then _
                  else if strncmpCase env.caseSens (wc :: ws) (nc :: ns)
                      (wc :: ws).length then
                    match env.fstat bp with
                    | Option.none => check_bookmarks_scan env (wc :: ws) true rest
                    | some d =>
                      if d then BmRes.pM .BOOKMARK_SUG (bmDirText env bp) 0
                      else BmRes.pM .BOOKMARK_SUG (bmFileText env bp) 0
                  else check_bookmarks_scan env (wc :: ws) true rest) = _
            rw [eq_false_of_ne_true h1]
            simp only [Bool.false_eq_true, if_false]
            rw [strncmpCase_length]
            by_cases hpf : prefCase env.caseSens (wc :: ws) (nc :: ns) = true
            · have hfs : env.fstat bp = Option.none := by
                cases hfs : env.fstat bp with
                | none => rfl
                | some d => exact absurd ⟨hpf, by simp [hfs]⟩ hnpf
              rw [hpf]
              simp only [if_true, hfs]
              exact ih
            · rw [eq_false_of_ne_true hpf]
              simpa using ih

/-- Bookmark table of the C5 counterexample: `doc -> /a` and
`docs -> /b`, both paths lstat as regular files; escaping is the
identity fallback. -/
def c5env : BmEnv :=
  ⟨true, [⟨some "doc", "/a"⟩, ⟨some "docs", "/b"⟩],
   fun p => if p = "/a" ∨ p = "/b" then some false else Option.none,
   fun _ => Option.none⟩

/-- C5 counterexample: the word `doc` equals the short name of the
bookmark `doc` whose path `/a` exists, yet the suggestion text is
`/b`: the scan runs from the last bookmark to the first and the
prefix test accepts `docs` first. -/
theorem C5_counterexample :
    (⟨some "doc", "/a"⟩ : Bookmark) ∈ c5env.bookmarks
    ∧ (c5env.fstat "/a").isSome = true
    ∧ check_bookmarks c5env "doc" true = .pM .BOOKMARK_SUG "/b" 0
    ∧ "/b" ≠ "/a" := by
  refine ⟨by decide, by decide, by decide, by decide⟩

/-- C5 amended: in print mode the bookmark source scans the bookmark
array from the last entry to the first and produces, for the first
scanned bookmark whose name has the word as a (case-configured)
prefix and whose path lstats successfully, a BAEJ suggestion
(`BOOKMARK_SUG` is a BAEJ-rendered type) at offset 0 whose text is
that bookmark's path, escaped, with '/' ensured exactly when the path
is a directory.  (The claim as stated fails because a later-scanned
bookmark whose name merely extends the word shadows the bookmark the
word names exactly.) -/
theorem C5_amended (env : BmEnv) (word : String) (h0 : word.data ≠ []) :
    check_bookmarks env word true =
      (match env.bookmarks.reverse.find? (bmAccept env word.data) with
       | Option.none => BmRes.noM
       | some b => BmRes.pM .BOOKMARK_SUG (bmText env b) 0)
    ∧ isBaejType .BOOKMARK_SUG = true := by
  refine ⟨?_, rfl⟩
  cases hw : word.data with
  | nil => exact absurd hw h0
  | cons wc ws =>
    unfold check_bookmarks
    rw [hw]
    exact check_bookmarks_scan_eq env wc ws _

/-- Bookmark table of the C5 witness: a single directory bookmark. -/
def c5wenv : BmEnv :=
  ⟨true, [⟨some "proj", "/home/u/proj"⟩],
   fun p => if p = "/home/u/proj" then some true else Option.none,
   fun _ => Option.none⟩

/-- C5 amended, witness: the word `proj` suggests the bookmark's
directory path with a trailing '/', at offset 0. -/
theorem C5_amended_witness :
    check_bookmarks c5wenv "proj" true = .pM .BOOKMARK_SUG "/home/u/proj/" 0 := by
  have h := (C5_amended c5wenv "proj" (by decide)).1
  rw [h]; decide

/-! ## The suggestion-strategy loop (src/suggestions.c:1762-1932), claim C1 -/

/-- Per-call environment of the strategy loop of `rl_suggestions`:
the keystroke-derived flags, the gates read from globals, and — the
sources being modelled separately — the outcome each checker would
report if consulted during this call (`aRes` = aliases, `bRes` =
bookmarks, `cRes` = path completion, `eRes` = ELN, `fRes` = file
names in the CWD, `hRes` = history, `jRes` = jump database; a
checker's flag argument is itself a function of this environment, so
one outcome per source suffices). -/
structure StratEnv where
  isSpace : Bool
  slashKey : Bool
  pointLtEnd : Bool
  lastSpace : Bool
  autocd : Bool
  autoOpen : Bool
  fullWord : Bool
  haveFirstWord : Bool
  internalSkip : Bool
  wlenZero : Bool
  elnCand : Bool
  aRes : MRes
  bRes : MRes
  cRes : MRes
  eRes : MRes
  fRes : MRes
  hRes : MRes
  jRes : MRes
  deriving DecidableEq, Repr

/-- Control effect of one strategy code: the code's source is not
consulted (gate closed, `-`, or unknown code), or it is consulted and
either halts the loop or lets it continue, or the whole scan is
aborted (the `goto NO_SUGGESTION` paths of the `c`/`f` cases). -/
inductive Step
  | skipS
  | tried (r : MRes) (halt : Bool)
  | abortS
  deriving DecidableEq, Repr

/-- The `switch (suggestion_strategy[st])` body of `rl_suggestions`
(src/suggestions.c:1768-1931), one code at a time:

* `a` (1770-1778): always consulted; any match halts.
* `b` (1780-1790): gated by `last_space || autocd || auto_open`.
* `c` (1792-1832): `rl_point < rl_end && c == '/'` aborts; gated as
  `b`; an internal command not taking file names aborts; in check
  mode (`c == ' '`) only a `FULL_MATCH` halts, in print mode any
  match halts.
* `e` (1834-1864): skipped when the word is empty or not an ELN
  candidate (`*lb` is ';'/':' , no leading 1-9 digit, or
  `__expand_eln` rejects); halts only on `PARTIAL_MATCH`
  (the `== 1` comparison on line 1861).
* `f` (1866-1895): gated as `b`, with the same internal-command
  abort; any match halts.
* `h` (1897-1903): always consulted; any match halts.
* `j` (1905-1926): gated by `last_space || autocd`; any match halts.
* `-` and anything else (1928-1930): not consulted. -/
def stepOf (env : StratEnv) (code : Char) : Step :=
  if code = 'a' then .tried env.aRes (env.aRes != .noM)
  else if code = 'b' then
    (if env.lastSpace || env.autocd || env.autoOpen then
      .tried env.bRes (env.bRes != .noM)
    else .skipS)
  else if code = 'c' then
    (if env.pointLtEnd && env.slashKey then .abortS
    else if env.lastSpace || env.autocd || env.autoOpen then
      (if env.haveFirstWord && env.internalSkip then .abortS
      else .tried env.cRes (if env.isSpace then env.cRes == .fM else env.cRes != .noM))
    else .skipS)
  else if code = 'e' then
    (if env.wlenZero then .skipS
    else if env.elnCand then .tried env.eRes (env.eRes == .pM)
    else .skipS)
  else if code = 'f' then
    (if env.lastSpace || env.autocd || env.autoOpen then
      (if env.haveFirstWord && env.internalSkip then .abortS
      else .tried env.fRes (env.fRes != .noM))
    else .skipS)
  else if code = 'h' then .tried env.hRes (env.hRes != .noM)
  else if code = 'j' then
    (if env.lastSpace || env.autocd then .tried env.jRes (env.jRes != .noM)
    else .skipS)
  else .skipS

/-- Outcome of the whole loop: the loop stopped at a code with a
match (`goto SUCCESS`), was aborted (`goto NO_SUGGESTION`), or ran
through all codes without a halting match. -/
inductive LoopRes
  | stopped (code : Char) (r : MRes)
  | aborted
  | fell
  deriving DecidableEq, Repr

/-- The `for (st = 0; st < SUG_STRATS; st++)` loop
(src/suggestions.c:1767-1932) over the configured strategy string,
returning the list of codes whose source was actually consulted, in
consultation order, together with the outcome. -/
def runStrat (env : StratEnv) : List Char → List Char × LoopRes
  | [] => ([], .fell)
  | code :: rest =>
    match stepOf env code with
    | .skipS => runStrat env rest
    | .abortS => ([], .aborted)
    | .tried r halt =>
      if halt then ([code], .stopped code r)
      else
        let t := runStrat env rest
        (code :: t.1, t.2)

/-- Was this code's source consulted? -/
def consultedB (env : StratEnv) (code : Char) : Bool :=
  match stepOf env code with
  | .tried _ _ => true
  | _ => false

theorem runStrat_sublist (env : StratEnv) (strat : List Char) :
    (runStrat env strat).1.Sublist strat := by
  induction strat with
  | nil => simp [runStrat]
  | cons code rest ih =>
    cases hstep : stepOf env code with
    | skipS =>
      simp only [runStrat, hstep]
      exact List.Sublist.cons _ ih
    | abortS =>
      simp only [runStrat, hstep]
      exact List.nil_sublist _
    | tried r halt =>
      cases halt with
      | true =>
        simp only [runStrat, hstep, if_pos]
        exact List.Sublist.cons₂ _ (List.nil_sublist rest)
      | false =>
        simp only [runStrat, hstep, Bool.false_eq_true, if_false]
        exact List.Sublist.cons₂ _ ih

theorem runStrat_trace_tried (env : StratEnv) (strat : List Char) :
    ∀ code ∈ (runStrat env strat).1, ∃ r hl, stepOf env code = .tried r hl := by
  induction strat with
  | nil => intro c hc; simp [runStrat] at hc
  | cons code rest ih =>
    cases hstep : stepOf env code with
    | skipS =>
      intro c hc
      simp only [runStrat, hstep] at hc
      exact ih c hc
    | abortS =>
      intro c hc
      simp only [runStrat, hstep] at hc
      simp at hc
    | tried r halt =>
      cases halt with
      | true =>
        intro c hc
        simp only [runStrat, hstep, if_pos] at hc
        rw [List.mem_singleton.mp hc]
        exact ⟨r, true, hstep⟩
      | false =>
        intro c hc
        simp only [runStrat, hstep, Bool.false_eq_true, if_false] at hc
        rcases List.mem_cons.mp hc with rfl | hc
        · exact ⟨r, false, hstep⟩
        · exact ih c hc

theorem stepOf_dash (env : StratEnv) : stepOf env '-' = .skipS := rfl

theorem runStrat_no_dash (env : StratEnv) (strat : List Char) :
    '-' ∉ (runStrat env strat).1 := by
  intro hmem
  obtain ⟨r, hl, hstep⟩ := runStrat_trace_tried env strat '-' hmem
  rw [stepOf_dash] at hstep
  cases hstep

theorem runStrat_stopped (env : StratEnv) (strat : List Char) (code : Char) (r : MRes)
    (hres : (runStrat env strat).2 = .stopped code r) :
    ∃ pre post, strat = pre ++ code :: post
      ∧ stepOf env code = .tried r true
      ∧ (∀ c1 ∈ pre, stepOf env c1 = .skipS ∨ ∃ r1, stepOf env c1 = .tried r1 false)
      ∧ (runStrat env strat).1 = pre.filter (consultedB env) ++ [code] := by
  induction strat with
  | nil => simp [runStrat] at hres
  | cons c0 rest ih =>
    cases hstep : stepOf env c0 with
    | skipS =>
      have h2 : runStrat env (c0 :: rest) = runStrat env rest := by
        simp [runStrat, hstep]
      rw [h2] at hres
      obtain ⟨pre, post, he, hcode, hpre, htr⟩ := ih hres
      refine ⟨c0 :: pre, post, by rw [he]; rfl, hcode, ?_, ?_⟩
      · intro c1 hc1
        rcases List.mem_cons.mp hc1 with rfl | hc1
        · exact Or.inl hstep
        · exact hpre c1 hc1
      · rw [h2, htr]
        have hcon : consultedB env c0 = false := by
          unfold consultedB; rw [hstep]
        simp [List.filter_cons, hcon]
    | abortS =>
      have h2 : (runStrat env (c0 :: rest)).2 = .aborted := by
        simp [runStrat, hstep]
      rw [h2] at hres
      cases hres
    | tried r0 halt =>
      cases halt with
      | true =>
        have h2 : runStrat env (c0 :: rest) = ([c0], .stopped c0 r0) := by
          simp [runStrat, hstep]
        rw [h2] at hres
        cases hres
        exact ⟨[], rest, rfl, hstep, by simp, by rw [h2]; simp⟩
      | false =>
        have h2 : runStrat env (c0 :: rest)
            = (c0 :: (runStrat env rest).1, (runStrat env rest).2) := by
          simp [runStrat, hstep]
        rw [h2] at hres
        obtain ⟨pre, post, he, hcode, hpre, htr⟩ := ih hres
        refine ⟨c0 :: pre, post, by rw [he]; rfl, hcode, ?_, ?_⟩
        · intro c1 hc1
          rcases List.mem_cons.mp hc1 with rfl | hc1
          · exact Or.inr ⟨r0, hstep⟩
          · exact hpre c1 hc1
        · rw [h2]
          have hcon : consultedB env c0 = true := by
            unfold consultedB; rw [hstep]
          simp [List.filter_cons, hcon, htr]

theorem stepOf_halt_print (env : StratEnv) (h1 : env.isSpace = false)
    (h2 : env.eRes ≠ .fM) :
    ∀ code r hl, stepOf env code = .tried r hl → (hl = true ↔ r ≠ .noM) := by
  intro code r hl hstep
  unfold stepOf at hstep
  split_ifs at hstep <;>
    first
      | exact (Step.noConfusion hstep)
      | (injection hstep with hr hhl
         subst hr
         subst hhl
         first
           | (simp [bne_iff_ne]; done)
           | (cases h3 : env.eRes <;> simp_all; done)
           | (simp_all; done))

/-- C1 amended: for every strategy string and loop environment, the
sources are consulted in exactly the order given by the string (the
consulted-code trace is an ordered sublist of it), every consulted
code's source was really invoked, a '-' code consults no source, and
when the loop stops the stopping code's source matched with a halting
result while every earlier code was either not consulted or was
consulted without halting, nothing after the stopping code appearing
in the trace.  In print mode (keystroke not a space; `check_eln`
then never reports `FULL_MATCH`) a consulted source halts the loop
exactly when it matches — the first match wins.  (As stated the
claim fails in check mode: a space keystroke probes the sources in
check mode, where a partial path-completion match and an ELN full
match do not halt the iteration.) -/
theorem C1_amended (env : StratEnv) (strat : List Char) :
    ((runStrat env strat).1.Sublist strat)
    ∧ ('-' ∉ (runStrat env strat).1)
    ∧ (∀ code ∈ (runStrat env strat).1, ∃ r hl, stepOf env code = .tried r hl)
    ∧ (∀ code r, (runStrat env strat).2 = .stopped code r →
        ∃ pre post, strat = pre ++ code :: post
          ∧ stepOf env code = .tried r true
          ∧ (∀ c1 ∈ pre, stepOf env c1 = .skipS ∨ ∃ r1, stepOf env c1 = .tried r1 false)
          ∧ (runStrat env strat).1 = pre.filter (consultedB env) ++ [code])
    ∧ (env.isSpace = false → env.eRes ≠ .fM →
        ∀ code r hl, stepOf env code = .tried r hl → (hl = true ↔ r ≠ .noM)) :=
  ⟨runStrat_sublist env strat, runStrat_no_dash env strat,
   runStrat_trace_tried env strat,
   fun code r hres => runStrat_stopped env strat code r hres,
   fun h1 h2 => stepOf_halt_print env h1 h2⟩

/-- Loop environment of the C1 counterexample: the keystroke is a
space (check mode), all gates are open, and both the path-completion
and the history source match (completion only partially). -/
def c1cex : StratEnv :=
  ⟨true, false, false, true, true, true, true, true, false, false, false,
   .noM, .noM, .pM, .noM, .noM, .pM, .noM⟩

/-- C1 counterexample: with strategy `ch` and a space keystroke, the
path-completion source is consulted first and matches
(`PARTIAL_MATCH`), yet the loop does not stop there: the history
source is consulted afterwards and its match is the one returned —
against the claim that the first matching source wins and that no
further source is evaluated after a match. -/
theorem C1_counterexample :
    stepOf c1cex 'c' = .tried .pM false
    ∧ runStrat c1cex ['c', 'h'] = (['c', 'h'], .stopped 'h' .pM) := by
  refine ⟨by decide, by decide⟩

/-- Loop environment of the C1 witness: print mode, only the history
source matches. -/
def c1wenv : StratEnv :=
  ⟨false, false, false, true, true, true, false, true, false, false, false,
   .noM, .noM, .noM, .noM, .noM, .pM, .noM⟩

/-- C1 amended, witness: with strategy `-h` in print mode, the '-' is
skipped and the loop stops at 'h' with its partial match; the trace
is exactly `['h']`. -/
theorem C1_amended_witness :
    ('-' ∉ (runStrat c1wenv ['-', 'h']).1)
    ∧ (∃ pre post, ['-', 'h'] = pre ++ 'h' :: post
        ∧ stepOf c1wenv 'h' = .tried .pM true
        ∧ (∀ c1 ∈ pre, stepOf c1wenv c1 = .skipS ∨ ∃ r1, stepOf c1wenv c1 = .tried r1 false)
        ∧ (runStrat c1wenv ['-', 'h']).1 = pre.filter (consultedB c1wenv) ++ ['h'])
    ∧ (true = true ↔ (MRes.pM ≠ MRes.noM)) := by
  have h := C1_amended c1wenv ['-', 'h']
  exact ⟨h.2.1, h.2.2.2.1 'h' .pM (by decide),
    h.2.2.2.2 rfl (by decide) 'h' .pM true (by decide)⟩

/-! ## check_cmds (src/suggestions.c:856-894) and the first-word
classification tail of rl_suggestions (src/suggestions.c:1945-2036),
claim C2 -/

/-- State read by the command-name check: the `bin_commands` index
(internal command names, aliases and every executable found in PATH,
built at startup), the `is_internal_c` oracle (checks.c, not part of
this source snapshot), the `ext_cmd_ok` flag, and the builtin table
of the detected shell (`none` models `SHELL_NONE`, whose switch case
returns `NO_MATCH`; the tables live in builtins data not part of this
snapshot). -/
structure CmdEnv where
  bin_commands : List String
  isInternal : String → Bool
  extCmdOk : Bool
  builtins : Option (List (List Char))

/-- Scan of one shell's builtin table by `check_builtins`
(src/suggestions.c:784-805): exact first-character quick check, then
check-mode `strcmp` equality or print-mode `strncmp` prefix test,
reporting partial for a strictly longer builtin. -/
def check_builtins_scan (str : List Char) (len : Nat) (printIt : Bool) :
    List (List Char) → MRes
  | [] => .noM
  | b :: rest =>
    if (str.headD '\x00') != (b.headD '\x00') then check_builtins_scan str len printIt rest
    else if printIt = false then
      (if str = b then .fM else check_builtins_scan str len printIt rest)
    else if strncmpZ b str len = false then check_builtins_scan str len printIt rest
    else if len < b.length then .pM else .fM

/-- The `switch (shell)` dispatch of `check_builtins`
(src/suggestions.c:772-782). -/
def check_builtinsTop (env : CmdEnv) (str : List Char) (len : Nat) (printIt : Bool) : MRes :=
  match env.builtins with
  | Option.none => .noM
  | some tbl => check_builtins_scan str len printIt tbl

/-- Result of `print_cmd_suggestion` (src/suggestions.c:809-831);
`none` models its `-1` (keep scanning: an external command while
`ext_cmd_ok` is off). -/
def print_cmd_suggestion (env : CmdEnv) (b : String) (len : Nat) : Option MRes :=
  if env.isInternal b then some (if len < b.length then .pM else .fM)
  else if env.extCmdOk then some (if len < b.length then .pM else .fM)
  else Option.none

/-- First-digit split of `print_internal_cmd_suggestion`
(src/suggestions.c:838-844): the part before the first character in
'1'..'9', and that character with the rest. -/
def splitDigit : List Char → Option (List Char × List Char)
  | [] => Option.none
  | a :: rest =>
    if decide ('1' ≤ a ∧ a ≤ '9') then some ([], a :: rest)
    else
      match splitDigit rest with
      | some (x, y) => some (a :: x, y)
      | Option.none => Option.none

/-- Model of `print_internal_cmd_suggestion`
(src/suggestions.c:833-854): an internal command fused with a numeric
parameter is a full match; otherwise fall back to the shell
builtins. -/
def print_internal_cmd_suggestion (env : CmdEnv) (str : List Char) (len : Nat)
    (printIt : Bool) : MRes :=
  match splitDigit str with
  | Option.none => check_builtinsTop env str len printIt
  | some (pre, _) =>
    if pre = [] then check_builtinsTop env str len printIt
    else if env.isInternal (String.mk pre) then .fM else .noM

/-- The `bin_commands` scan of `check_cmds`
(src/suggestions.c:869-891): exact first-character quick check; in
check mode a `strcmp` equality test; in print mode the second-
character quick check and the `strncmp` prefix test on `len`
characters, then `print_cmd_suggestion` (whose `-1` keeps
scanning). -/
def check_cmds_scan (env : CmdEnv) (cmd : List Char) (len : Nat) (printIt : Bool) :
    List String → MRes
  | [] => print_internal_cmd_suggestion env cmd len printIt
  | b :: rest =>
    if (cmd.headD '\x00') != (b.data.headD '\x00') then
      check_cmds_scan env cmd len printIt rest
    else if printIt = false then
      (if cmd = b.data then .fM else check_cmds_scan env cmd len printIt rest)
    else if 1 < len && (b.data.get? 1).isSome && cmd.get? 1 != b.data.get? 1 then
      check_cmds_scan env cmd len printIt rest
    else if strncmpZ cmd b.data len = false then check_cmds_scan env cmd len printIt rest
    else
      match print_cmd_suggestion env b len with
      | some r => r
      | Option.none => check_cmds_scan env cmd len printIt rest

/-- The backslash strip of `check_cmds` (src/suggestions.c:863-867):
`if (*cmd == '\\' && *(cmd + 1)) { cmd++; len--; }`. -/
def bsStrip (str : List Char) (len : Nat) : List Char × Nat :=
  match str with
  | a :: c2 :: rest => if a == '\\' then (c2 :: rest, len - 1) else (str, len)
  | _ => (str, len)

/-- Model of `check_cmds` (src/suggestions.c:856-894): reject empty
input, strip one leading backslash (when a character follows it),
then scan `bin_commands` and fall back to fused-internal commands and
shell builtins. -/
def check_cmds (env : CmdEnv) (str : List Char) (len : Nat) (printIt : Bool) : MRes :=
  if len = 0 ∨ str = [] then .noM
  else
    check_cmds_scan env (bsStrip str len).1 (bsStrip str len).2 printIt env.bin_commands

/-- Declarative form of a `bin_commands` match: some command accepted
by the scan's tests (prefix on `len` characters plus the
internal-or-external filter in print mode; equality in check
mode). -/
def cmdsAny (env : CmdEnv) (cmd : List Char) (len : Nat) (printIt : Bool) : Bool :=
  if printIt then
    env.bin_commands.any
      (fun b => strncmpZ cmd b.data len && (env.isInternal b || env.extCmdOk))
  else env.bin_commands.any (fun b => cmd == b.data)

/-- Declarative form of a builtin-table match. -/
def builtinsAny (env : CmdEnv) (str : List Char) (len : Nat) (printIt : Bool) : Bool :=
  match env.builtins with
  | Option.none => false
  | some tbl =>
    if printIt then tbl.any (fun b => strncmpZ b str len)
    else tbl.any (fun b => str == b)

/-- Declarative form of the fallback of `check_cmds`: an internal
command fused with a digit parameter, or a shell builtin. -/
def fallbackSpec (env : CmdEnv) (cmd : List Char) (len : Nat) (printIt : Bool) : Bool :=
  match splitDigit cmd with
  | some (pre, _) =>
    if pre = [] then builtinsAny env cmd len printIt
    else env.isInternal (String.mk pre)
  | Option.none => builtinsAny env cmd len printIt

/-- Declarative form of a `check_cmds` match, after the guard and the
backslash strip. -/
def cmdsSpec (env : CmdEnv) (str : List Char) (len : Nat) (printIt : Bool) : Bool :=
  if len = 0 ∨ str = [] then false
  else
    cmdsAny env (bsStrip str len).1 (bsStrip str len).2 printIt
      || fallbackSpec env (bsStrip str len).1 (bsStrip str len).2 printIt

theorem strncmpZ_head (a b : List Char) (n : Nat) (h : strncmpZ a b (n + 1) = true) :
    a.headD '\x00' = b.headD '\x00' := by
  cases a <;> cases b <;> simp_all [strncmpZ]

theorem strncmpZ_second (a b : List Char) (n : Nat) (b1 : Char)
    (h : strncmpZ a b n = true) (hn : 2 ≤ n) (hb : b.get? 1 = some b1) :
    a.get? 1 = some b1 := by
  obtain ⟨m, rfl⟩ : ∃ m, n = m + 2 := ⟨n - 2, by omega⟩
  cases a with
  | nil =>
    cases b with
    | nil => simp at hb
    | cons y ys => simp [strncmpZ] at h
  | cons x xs =>
    cases b with
    | nil => simp at hb
    | cons y ys =>
      simp only [strncmpZ, Bool.and_eq_true] at h
      cases xs with
      | nil =>
        cases ys with
        | nil => simp at hb
        | cons y1 ys1 => simp [strncmpZ] at h
      | cons x1 xs1 =>
        cases ys with
        | nil => simp at hb
        | cons y1 ys1 =>
          simp only [strncmpZ, Bool.and_eq_true] at h
          simp only [List.get?] at hb ⊢
          rw [← hb]
          simpa using h.2.1

theorem check_builtins_scan_ne (str : List Char) (len : Nat) (hl : 1 ≤ len) (p : Bool)
    (l : List (List Char)) :
    check_builtins_scan str len p l ≠ .noM ↔
      (if p then l.any (fun b => strncmpZ b str len) else l.any (fun b => str == b)) = true := by
  induction l with
  | nil => cases p <;> simp [check_builtins_scan]
  | cons b rest ih =>
    by_cases hhd : (str.headD '\x00') != (b.headD '\x00')
    · have hskip : check_builtins_scan str len p (b :: rest)
          = check_builtins_scan str len p rest := by
        rw [check_builtins_scan]
        rw [if_pos hhd]
      rw [hskip, ih]
      have hne : str.headD '\x00' ≠ b.headD '\x00' := by simpa using hhd
      cases p with
      | true =>
        have hpred : strncmpZ b str len = false := by
          cases hs : strncmpZ b str len with
          | false => rfl
          | true =>
            obtain ⟨m, rfl⟩ : ∃ m, len = m + 1 := ⟨len - 1, by omega⟩
            exact absurd (strncmpZ_head b str m hs).symm hne
        simp [hpred]
      | false =>
        have hpred : (str == b) = false := by
          cases hs : str == b with
          | false => rfl
          | true =>
            have : str = b := by simpa using hs
            rw [this] at hne
            exact absurd rfl hne
        simp [hpred]
    · have hhd2 : ((str.headD '\x00') != (b.headD '\x00')) = false := by
        simpa using hhd
      cases p with
      | false =>
        by_cases heq : str = b
        · have : check_builtins_scan str len false (b :: rest) = .fM := by
            rw [check_builtins_scan]
            rw [hhd2]
            simp [heq]
          rw [this]
          simp [heq]
        · have : check_builtins_scan str len false (b :: rest)
              = check_builtins_scan str len false rest := by
            rw [check_builtins_scan]
            rw [hhd2]
            simp [heq]
          rw [this, ih]
          have : (str == b) = false := by simpa using heq
          simp [this]
      | true =>
        by_cases hs : strncmpZ b str len = false
        · have : check_builtins_scan str len true (b :: rest)
              = check_builtins_scan str len true rest := by
            rw [check_builtins_scan]
            rw [hhd2]
            simp [hs]
          rw [this, ih]
          simp [hs]
        · have hs2 : strncmpZ b str len = true := by
            cases h2 : strncmpZ b str len with
            | false => exact absurd h2 hs
            | true => rfl
          have : check_builtins_scan str len true (b :: rest)
              = (if len < b.length then .pM else .fM) := by
            rw [check_builtins_scan]
            rw [hhd2]
            simp [hs2]
          rw [this]
          constructor
          · intro _
            simp [hs2]
          · intro _
            split <;> simp
        done

theorem print_internal_ne (env : CmdEnv) (cmd : List Char) (len : Nat)
    (hl : 1 ≤ len) (p : Bool) :
    print_internal_cmd_suggestion env cmd len p ≠ .noM
      ↔ fallbackSpec env cmd len p = true := by
  unfold print_internal_cmd_suggestion fallbackSpec
  have hbt : check_builtinsTop env cmd len p ≠ .noM ↔ builtinsAny env cmd len p = true := by
    unfold check_builtinsTop builtinsAny
    cases env.builtins with
    | none => simp
    | some tbl => exact check_builtins_scan_ne cmd len hl p tbl
  cases hsd : splitDigit cmd with
  | none => exact hbt
  | some pr =>
    obtain ⟨pre, rest⟩ := pr
    by_cases hpre : pre = []
    · simp only [hpre, if_pos rfl]
      simpa using hbt
    · simp only [if_neg hpre]
      by_cases hint : env.isInternal (String.mk pre) = true
      · simp [hint]
      · have : env.isInternal (String.mk pre) = false := by
          cases h2 : env.isInternal (String.mk pre) with
          | false => rfl
          | true => exact absurd h2 hint
        simp [this]

theorem check_cmds_scan_ne (env : CmdEnv) (cmd : List Char) (len : Nat)
    (hl : 1 ≤ len) (p : Bool) (l : List String) :
    check_cmds_scan env cmd len p l ≠ .noM ↔
      ((if p then l.any (fun b => strncmpZ cmd b.data len && (env.isInternal b || env.extCmdOk))
        else l.any (fun b => cmd == b.data)) = true
       ∨ print_internal_cmd_suggestion env cmd len p ≠ .noM) := by
  induction l with
  | nil => cases p <;> simp [check_cmds_scan]
  | cons b rest ih =>
    by_cases hhd : (cmd.headD '\x00') != (b.data.headD '\x00')
    · have hskip : check_cmds_scan env cmd len p (b :: rest)
          = check_cmds_scan env cmd len p rest := by
        rw [check_cmds_scan]
        rw [if_pos hhd]
      rw [hskip, ih]
      have hne : cmd.headD '\x00' ≠ b.data.headD '\x00' := by simpa using hhd
      cases p with
      | true =>
        have hpred : strncmpZ cmd b.data len = false := by
          cases hs : strncmpZ cmd b.data len with
          | false => rfl
          | true =>
            obtain ⟨m, rfl⟩ : ∃ m, len = m + 1 := ⟨len - 1, by omega⟩
            exact absurd (strncmpZ_head cmd b.data m hs) hne
        simp [hpred]
      | false =>
        have hpred : (cmd == b.data) = false := by
          cases hs : cmd == b.data with
          | false => rfl
          | true =>
            have : cmd = b.data := by simpa using hs
            rw [this] at hne
            exact absurd rfl hne
        simp [hpred]
    · have hhd2 : ((cmd.headD '\x00') != (b.data.headD '\x00')) = false := by
        simpa using hhd
      cases p with
      | false =>
        by_cases heq : cmd = b.data
        · have : check_cmds_scan env cmd len false (b :: rest) = .fM := by
            rw [check_cmds_scan]
            rw [hhd2]
            simp [heq]
          rw [this]
          simp [heq]
        · have : check_cmds_scan env cmd len false (b :: rest)
              = check_cmds_scan env cmd len false rest := by
            rw [check_cmds_scan]
            rw [hhd2]
            simp [heq]
          rw [this, ih]
          have : (cmd == b.data) = false := by simpa using heq
          simp [this]
      | true =>
        by_cases hq : (1 < len && (b.data.get? 1).isSome && cmd.get? 1 != b.data.get? 1) = true
        · have hskip : check_cmds_scan env cmd len true (b :: rest)
              = check_cmds_scan env cmd len true rest := by
            rw [check_cmds_scan]
            rw [hhd2]
            rw [if_neg Bool.false_ne_true, if_neg (by decide : ¬ (true = false)), if_pos hq]
          rw [hskip, ih]
          have hpred : strncmpZ cmd b.data len = false := by
            cases hs : strncmpZ cmd b.data len with
            | false => rfl
            | true =>
              simp only [Bool.and_eq_true, bne_iff_ne, decide_eq_true_eq] at hq
              obtain ⟨⟨hlen2, hsome⟩, hne1⟩ := hq
              obtain ⟨b1, hb1⟩ := Option.isSome_iff_exists.mp hsome
              exact absurd (strncmpZ_second cmd b.data len b1 hs (by omega) hb1)
                (by rw [hb1] at hne1; exact hne1)
          simp [hpred]
        · have hqf : (1 < len && (b.data.get? 1).isSome && cmd.get? 1 != b.data.get? 1)
              = false := by
            simpa using hq
          by_cases hs : strncmpZ cmd b.data len = false
          · have hskip : check_cmds_scan env cmd len true (b :: rest)
                = check_cmds_scan env cmd len true rest := by
              rw [check_cmds_scan]
              rw [hhd2]
              rw [if_neg Bool.false_ne_true, if_neg (by decide : ¬ (true = false)),
                if_neg hq, if_pos hs]
            rw [hskip, ih]
            simp [hs]
          · have hs2 : strncmpZ cmd b.data len = true := by
              cases h2 : strncmpZ cmd b.data len with
              | false => exact absurd h2 hs
              | true => rfl
            by_cases hacc : (env.isInternal b || env.extCmdOk) = true
            · have hsome : ∃ r, print_cmd_suggestion env b len = some r ∧ r ≠ .noM := by
                unfold print_cmd_suggestion
                by_cases hint : env.isInternal b = true
                · exact ⟨if len < b.length then .pM else .fM,
                    by rw [if_pos hint], by split <;> simp⟩
                · have hor : env.isInternal b = true ∨ env.extCmdOk = true := by
                    simpa using hacc
                  have hext : env.extCmdOk = true := by
                    rcases hor with h | h
                    · exact absurd h hint
                    · exact h
                  refine ⟨if len < b.length then .pM else .fM, ?_, by split <;> simp⟩
                  rw [if_neg (by simp_all), if_pos hext]
              obtain ⟨r, hr, hrne⟩ := hsome
              have : check_cmds_scan env cmd len true (b :: rest) = r := by
                rw [check_cmds_scan]
                rw [hhd2]
                rw [if_neg Bool.false_ne_true, if_neg (by decide : ¬ (true = false)),
                  if_neg hq, hs2, if_neg (by decide : ¬ (true = false)), hr]
              rw [this]
              constructor
              · intro _
                exact Or.inl (by simp [hs2, hacc])
              · intro _
                exact hrne
            · have hnone : print_cmd_suggestion env b len = Option.none := by
                unfold print_cmd_suggestion
                simp only [Bool.or_eq_true] at hacc
                push_neg at hacc
                rw [if_neg (by simp [hacc.1]), if_neg (by simp [hacc.2])]
              have hskip : check_cmds_scan env cmd len true (b :: rest)
                  = check_cmds_scan env cmd len true rest := by
                rw [check_cmds_scan]
                rw [hhd2]
                rw [if_neg Bool.false_ne_true, if_neg (by decide : ¬ (true = false)),
                  if_neg hq, hs2, if_neg (by decide : ¬ (true = false)), hnone]
              rw [hskip, ih]
              have hacc2 : (env.isInternal b || env.extCmdOk) = false := by
                simpa using hacc
              simp [hacc2, hs2]

theorem check_cmds_ne (env : CmdEnv) (str : List Char) (len : Nat) (p : Bool)
    (h : str.length ≤ len) :
    check_cmds env str len p ≠ .noM ↔ cmdsSpec env str len p = true := by
  unfold check_cmds cmdsSpec
  by_cases hg : len = 0 ∨ str = []
  · rw [if_pos hg, if_pos hg]
    simp
  · rw [if_neg hg, if_neg hg]
    push_neg at hg
    have h1 : 1 ≤ (bsStrip str len).2 := by
      rcases str with _ | ⟨a, rest0⟩
      · exact absurd rfl hg.2
      · rcases rest0 with _ | ⟨c2, rest⟩
        · simpa [bsStrip] using Nat.one_le_iff_ne_zero.mpr hg.1
        · by_cases hbs : (a == '\\') = true
          · have hlen2 : 2 ≤ len := by
              simp only [List.length_cons] at h
              omega
            simp only [bsStrip, if_pos hbs]
            omega
          · simp only [bsStrip, if_neg hbs]
            exact Nat.one_le_iff_ne_zero.mpr hg.1
    rw [check_cmds_scan_ne env _ _ h1 p env.bin_commands,
      print_internal_ne env _ _ h1 p]
    cases p <;> simp [cmdsAny]

/-- State of the wrong-command machinery: the `wrong_cmd` flag and
whether the warning prompt is the installed prompt (set by
`rl_save_prompt`/`rl_set_prompt`, cleared by `rl_restore_prompt`). -/
structure WarnSt where
  wrongCmd : Bool
  warnPrompt : Bool
  deriving DecidableEq, Repr

/-- Model of `recover_from_wrong_cmd` (src/suggestions.c:103-128):
the early guard keeps the state when, outside a keybind dispatch or
when editing a non-first word of a multi-word line, the line ends in
an unescaped interior space (`lineGuard` is that line inspection);
otherwise the prompt is restored and `wrong_cmd` cleared. -/
def recover_from_wrong_cmd (dispatching : Bool) (nwords : Nat) (pointFirst : Bool)
    (lineGuard : Bool) (st : WarnSt) : WarnSt :=
  if ((dispatching = false) ∨ (1 < nwords ∧ pointFirst = false)) ∧ lineGuard = true then st
  else ⟨false, false⟩

/-- Per-keystroke environment of the first-word classification tail
of `rl_suggestions` (src/suggestions.c:1945-2036): the resolved word
(`first_word ? first_word : last_word`), the keystroke, the word
count, the cursor flags, the `access(word, X_OK)` / `is_number` /
`check_completions(word, wlen, c, CHECK_MATCH)` oracles, the listing
size, `full_word != 0`, the `warning_prompt` configuration flag, the
line inspection of `recover_from_wrong_cmd`, whether the line buffer
starts with a space, and the suggestion-display flags read at
`NO_SUGGESTION`. -/
structure TailEnv where
  cmdenv : CmdEnv
  word : String
  key : Char
  nwords : Nat
  pointFirst : Bool
  pointLtEnd : Bool
  slashExec : Bool
  isNumW : Bool
  files : Nat
  complCheck : MRes
  fullWord : Bool
  warnCfg : Bool
  lineGuard : Bool
  leadingSpace : Bool
  sugPrinted : Bool
  escInWord : Bool

/-- The two `recover_from_wrong_cmd` call sites of the tail run with
`rl_dispatching = 1` (src/suggestions.c:1979-1981 and 2017-2019). -/
def recoverW (env : TailEnv) (st : WarnSt) : WarnSt :=
  recover_from_wrong_cmd true env.nwords env.pointFirst env.lineGuard st

/-- Model of `print_warning_prompt` (src/suggestions.c:1308-1331):
raise `wrong_cmd` and install the warning prompt unless the feature
is disabled, the flag is already set, or the first character is one
of the exempt prefixes. -/
def print_warning_prompt (warnCfg : Bool) (fc : Char) (st : WarnSt) : WarnSt :=
  if warnCfg = true ∧ st.wrongCmd = false
      ∧ fc ≠ ';' ∧ fc ≠ ':' ∧ fc ≠ '#' ∧ fc ≠ '$' ∧ fc ≠ '\'' ∧ fc ≠ '"' then
    ⟨true, true⟩
  else st

/-- The entry guard of `CHECK_FIRST_WORD`
(src/suggestions.c:1947-1955): words that are never classified
(empty, quote/variable/comment openers on a space keystroke,
redirections, globs, assignments, separators, or a line starting
with a space). -/
def guardBad (env : TailEnv) : Bool :=
  let w := env.word.data
  let f := w.headD '\x00'
  w.isEmpty
  || (env.key == ' ' && (f == '\'' || f == '"' || f == '$' || f == '#'))
  || f == '<' || f == '>' || f == '!' || f == '\x7b' || f == '['
  || f == '(' || w.contains '=' || env.leadingSpace
  || f == '|' || f == ';' || f == '&'

/-- The single-trailing-space trim applied before `check_cmds`
(src/suggestions.c:1970-1971); `wlen` itself is not updated. -/
def tailTrim (w : List Char) : List Char :=
  if w ≠ [] ∧ w.getLast? = some ' ' then w.dropLast else w

/-- `flag = (c == ' ' || full_word) ? CHECK_MATCH : PRINT_MATCH`
(src/suggestions.c:1973), as the print-mode bit. -/
def tailFlag (env : TailEnv) : Bool :=
  !(env.key == ' ' || env.fullWord)

/-- The `printed` computation of the classification tail
(src/suggestions.c:1957-1975): an executable absolute path, an
in-range ELN, or a path completion — each only when revisiting the
first word of a longer line — and otherwise `check_cmds` on the
trimmed word with the untrimmed length. -/
def tailPrinted (env : TailEnv) (printedIn : Bool) : Bool :=
  if env.pointFirst && (env.word.data.headD '\x00' == '/') && env.slashExec then true
  else if env.pointFirst && env.pointLtEnd
      && decide ('1' ≤ env.word.data.headD '\x00' ∧ env.word.data.headD '\x00' ≤ '9')
      && env.isNumW then
    (printedIn || decide (0 < atoiS env.word ∧ atoiS env.word ≤ (env.files : Int)))
  else if env.pointFirst && env.pointLtEnd && (env.complCheck != .noM) then true
  else check_cmds env.cmdenv (tailTrim env.word.data) env.word.data.length
    (tailFlag env) != .noM

/-- Declarative resolution of the first word: same decision chain,
with the `check_cmds` scan replaced by its characterization
`cmdsSpec`. -/
def tailResolvesB (env : TailEnv) : Bool :=
  if env.pointFirst && (env.word.data.headD '\x00' == '/') && env.slashExec then true
  else if env.pointFirst && env.pointLtEnd
      && decide ('1' ≤ env.word.data.headD '\x00' ∧ env.word.data.headD '\x00' ≤ '9')
      && env.isNumW then
    decide (0 < atoiS env.word ∧ atoiS env.word ≤ (env.files : Int))
  else if env.pointFirst && env.pointLtEnd && (env.complCheck != .noM) then true
  else cmdsSpec env.cmdenv (tailTrim env.word.data) env.word.data.length (tailFlag env)

/-- The `SUCCESS` epilogue's recover (src/suggestions.c:2016-2020). -/
def succExit (env : TailEnv) (st : WarnSt) : WarnSt :=
  if st.wrongCmd = true ∧ env.nwords = 1 then recoverW env st else st

/-- The guarded `print_warning_prompt` call
(src/suggestions.c:1986-1992): skipped for one-slash search
expressions. -/
def pwpStep (env : TailEnv) (st : WarnSt) : WarnSt :=
  if env.word.data.headD '\x00' ≠ '/' ∨ (env.word.data.drop 1).contains '/' then
    print_warning_prompt env.warnCfg (env.word.data.headD '\x00') st
  else st

/-- The `NO_SUGGESTION` handling (src/suggestions.c:1994-2007): with
an escape character in the word and a printed suggestion, control
reaches `SUCCESS` with `printed = 1` and may recover. -/
def noSugExit (env : TailEnv) (st : WarnSt) : WarnSt :=
  if env.sugPrinted = true ∧ env.escInWord = true then succExit env st else st

/-- Model of the `CHECK_FIRST_WORD` tail of `rl_suggestions`
(src/suggestions.c:1945-2036): the guard jumps to `SUCCESS` with the
stale `printed`; a resolved word recovers from a previous
`wrong_cmd` (twice: at src/suggestions.c:1978-1982 and in the
`SUCCESS` block); an unresolved one switches to the warning prompt.
Returns the new state and the final `printed` flag. -/
def classifyTail (env : TailEnv) (st : WarnSt) (printedIn : Bool) : WarnSt × Bool :=
  if guardBad env then
    (if printedIn = true ∧ st.wrongCmd = true ∧ env.nwords = 1 then recoverW env st else st,
     printedIn)
  else if tailPrinted env printedIn = true then
    (succExit env (if st.wrongCmd = true ∧ (env.nwords = 1 ∨ env.pointFirst = true)
                   then recoverW env st else st), true)
  else
    (noSugExit env (pwpStep env st), env.sugPrinted && env.escInWord)

/-- One-slash search expressions (`/pattern`, no second slash), which
never reach the warning prompt (src/suggestions.c:1985-1991). -/
def slashSearch (w : List Char) : Bool :=
  (w.headD '\x00' == '/') && !((w.drop 1).contains '/')

/-- Modelled from the spec: the "special forms" of the claim — the
first words that are by design never classified as wrong commands.
In the source these are the guard of `CHECK_FIRST_WORD`, the exempt
first characters of `print_warning_prompt`, and one-slash search
expressions. -/
def specialForm (env : TailEnv) : Bool :=
  guardBad env
  || (let f := env.word.data.headD '\x00'
      f == ';' || f == ':' || f == '#' || f == '$' || f == '\'' || f == '"')
  || slashSearch env.word.data

theorem recoverW_clears (env : TailEnv) (st : WarnSt)
    (h4 : env.nwords = 1 ∨ env.pointFirst = true) :
    recoverW env st = ⟨false, false⟩ := by
  unfold recoverW recover_from_wrong_cmd
  rw [if_neg]
  rintro ⟨htv | ⟨hlt, hpf⟩, -⟩
  · cases htv
  · rcases h4 with h | h
    · omega
    · rw [h] at hpf; cases hpf

theorem check_cmds_bne_eq (env : CmdEnv) (str : List Char) (len : Nat) (p : Bool)
    (h : str.length ≤ len) :
    (check_cmds env str len p != .noM) = cmdsSpec env str len p := by
  have hh := check_cmds_ne env str len p h
  by_cases hck : check_cmds env str len p = .noM
  · have h2 : cmdsSpec env str len p = false := by
      cases hv : cmdsSpec env str len p with
      | false => rfl
      | true => exact absurd hck (hh.mpr hv)
    rw [h2, hck]
    rfl
  · rw [hh.mp hck]
    simpa [bne_iff_ne] using hck

theorem tailPrinted_eq (env : TailEnv) : tailPrinted env false = tailResolvesB env := by
  have hle : (tailTrim env.word.data).length ≤ env.word.data.length := by
    unfold tailTrim
    split
    · rw [List.length_dropLast]; omega
    · exact Nat.le_refl _
  unfold tailPrinted tailResolvesB
  rw [check_cmds_bne_eq env.cmdenv (tailTrim env.word.data) env.word.data.length
    (tailFlag env) hle]
  simp only [Bool.false_or]

theorem tail_printed_state (env : TailEnv) (st : WarnSt)
    (h2 : st.warnPrompt = st.wrongCmd) (h4 : env.nwords = 1 ∨ env.pointFirst = true) :
    succExit env (if st.wrongCmd = true ∧ (env.nwords = 1 ∨ env.pointFirst = true)
        then recoverW env st else st) = ⟨false, false⟩ := by
  obtain ⟨wc, wp⟩ := st
  cases wc with
  | true =>
    rw [if_pos ⟨rfl, h4⟩, recoverW_clears env _ h4]
    unfold succExit
    rw [if_neg]
    rintro ⟨hc, -⟩
    cases hc
  | false =>
    rw [if_neg (by rintro ⟨hc, -⟩; cases hc)]
    unfold succExit
    rw [if_neg (by rintro ⟨hc, -⟩; cases hc)]
    simp only at h2
    rw [h2]

/-- C2 amended: provided the warning-prompt feature is enabled, the
keystroke sequence contains no escape character, and the keystroke
reaches first-word classification (the tail is entered only with
`nwords == 1` or with the cursor back on the first word): afterwards
the warning prompt is installed exactly when `wrong_cmd` is set, and
`wrong_cmd` is set exactly when the word is not one of the special
forms (guard characters, `print_warning_prompt`'s exempt prefixes,
one-slash search expressions — the empty word is special) and the
first word resolves to nothing: no `bin_commands` entry (internal
commands, aliases, PATH executables) per the `check_cmds` scan mode,
no fused-internal command, no shell builtin, and — when revisiting
the first word mid-line — no executable absolute path, in-range ELN,
or path completion.  When the first word becomes resolvable again
`wrong_cmd` is cleared and the normal prompt restored.  (The claim as
stated fails with the warning-prompt feature disabled: `wrong_cmd`
then never becomes true.) -/
theorem C2_amended (env : TailEnv) (st : WarnSt)
    (h1 : env.warnCfg = true) (h2 : st.warnPrompt = st.wrongCmd)
    (h3 : env.escInWord = false) (h4 : env.nwords = 1 ∨ env.pointFirst = true) :
    ((classifyTail env st false).1.warnPrompt = (classifyTail env st false).1.wrongCmd)
    ∧ (specialForm env = false →
        ((classifyTail env st false).1.wrongCmd = true ↔ tailResolvesB env = false))
    ∧ (specialForm env = true → st.wrongCmd = false →
        (classifyTail env st false).1.wrongCmd = false) := by
  unfold classifyTail
  by_cases hgb : guardBad env = true
  · rw [if_pos hgb, if_neg (by rintro ⟨hc, -⟩; cases hc)]
    refine ⟨h2, ?_, ?_⟩
    · intro hsf
      unfold specialForm at hsf
      rw [hgb] at hsf
      cases hsf
    · intro _ hwc
      exact hwc
  · rw [if_neg hgb]
    by_cases htp : tailPrinted env false = true
    · rw [if_pos htp]
      rw [tail_printed_state env st h2 h4]
      refine ⟨rfl, ?_, fun _ _ => rfl⟩
      intro _
      rw [← tailPrinted_eq, htp]
      simp
    · rw [if_neg htp]
      have hout : noSugExit env (pwpStep env st) = pwpStep env st := by
        unfold noSugExit
        rw [if_neg]
        rintro ⟨-, hesc⟩
        rw [h3] at hesc
        cases hesc
      rw [hout]
      have hres : tailResolvesB env = false := by
        rw [← tailPrinted_eq]
        simpa using htp
      refine ⟨?_, ?_, ?_⟩
      · unfold pwpStep print_warning_prompt
        split
        · split
          · rfl
          · exact h2
        · exact h2
      · intro hsf
        have hsl : slashSearch env.word.data = false := by
          cases hv : slashSearch env.word.data with
          | false => rfl
          | true => unfold specialForm at hsf; rw [hv] at hsf; simp at hsf
        have hcond : env.word.data.headD '\x00' ≠ '/' ∨ (env.word.data.drop 1).contains '/' := by
          unfold slashSearch at hsl
          rcases Bool.and_eq_false_iff.mp hsl with h | h
          · exact Or.inl (by simpa using h)
          · exact Or.inr (by simpa using h)
        unfold pwpStep
        rw [if_pos hcond]
        rw [hres]
        unfold print_warning_prompt
        obtain ⟨wc, wp⟩ := st
        cases wc with
        | false =>
          rw [if_pos]
          · simp
          · refine ⟨h1, rfl, ?_, ?_, ?_, ?_, ?_, ?_⟩ <;>
            · intro hfc
              unfold specialForm at hsf
              rw [hfc] at hsf
              simp at hsf
        | true =>
          rw [if_neg (by rintro ⟨-, hc, -⟩; cases hc)]
          exact iff_of_true rfl rfl
      · intro hsf hwc
        unfold specialForm at hsf
        rw [eq_false_of_ne_true hgb] at hsf
        simp only [Bool.false_or, Bool.or_eq_true] at hsf
        unfold pwpStep
        rcases hsf with hfc | hsl
        · split
          · unfold print_warning_prompt
            rw [if_neg]
            · exact hwc
            · rintro ⟨-, -, hn1, hn2, hn3, hn4, hn5, hn6⟩
              rcases hfc with ((((h | h) | h) | h) | h) | h
              · exact hn1 (by simpa using h)
              · exact hn2 (by simpa using h)
              · exact hn3 (by simpa using h)
              · exact hn4 (by simpa using h)
              · exact hn5 (by simpa using h)
              · exact hn6 (by simpa using h)
          · exact hwc
        · rw [if_neg]
          · exact hwc
          · unfold slashSearch at hsl
            have hab := hsl
            simp only [Bool.and_eq_true] at hab
            rintro (hne | hcon)
            · exact hne (by simpa using hab.1)
            · have hf : (env.word.data.drop 1).contains '/' = false := by
                simpa using hab.2
              rw [hf] at hcon
              cases hcon

/-- Command environment in which nothing resolves: no bin_commands,
no internal commands, external commands disabled, `SHELL_NONE`. -/
def c2cmdenv : CmdEnv := ⟨[], fun _ => false, false, Option.none⟩

/-- C2 counterexample environment: the unresolvable word `xyzzy` on a
one-word line, with the warning-prompt feature disabled
(`warning_prompt == 0`). -/
def c2cex : TailEnv :=
  ⟨c2cmdenv, "xyzzy", 'y', 1, false, false, false, false, 0, .noM, false,
   false, false, false, false, false⟩

/-- C2 counterexample: the first word `xyzzy` is non-empty, is no
special form and matches no known command, builtin, alias or path
executable, yet after classification `wrong_cmd` is still false: with
the warning-prompt feature disabled, `print_warning_prompt`
(src/suggestions.c:1313) never raises the flag, against the claim's
unconditional "if and only if". -/
theorem C2_counterexample :
    (classifyTail c2cex ⟨false, false⟩ false).1.wrongCmd = false
    ∧ c2cex.word.data ≠ []
    ∧ specialForm c2cex = false
    ∧ tailResolvesB c2cex = false := by
  refine ⟨by decide, by decide, by decide, by decide⟩

/-- C2 witness environment: as the counterexample but with the
warning prompt enabled. -/
def c2wenv : TailEnv :=
  ⟨c2cmdenv, "xyzzy", 'y', 1, false, false, false, false, 0, .noM, false,
   true, false, false, false, false⟩

/-- C2 amended, witness: with the feature enabled, typing the
unresolvable one-word line `xyzzy` sets `wrong_cmd` and installs the
warning prompt. -/
theorem C2_amended_witness :
    (classifyTail c2wenv ⟨false, false⟩ false).1.wrongCmd = true
    ∧ (classifyTail c2wenv ⟨false, false⟩ false).1.warnPrompt = true := by
  have h := C2_amended c2wenv ⟨false, false⟩ rfl rfl rfl (Or.inl rfl)
  have hw : (classifyTail c2wenv ⟨false, false⟩ false).1.wrongCmd = true :=
    (h.2.1 (by decide)).mpr (by decide)
  refine ⟨hw, ?_⟩
  rw [h.1, hw]

end Clifm
